import Mathlib

/-!
# Verification of the market_response_week data pipeline

This file gives a shallow embedding, in Lean 4, of the core algorithms of the
`market_response_week` repository:

* the tick-rule trade-sign classification
  (`taq_data_analysis_responses_second.taq_trade_signs_trade_data`),
* the per-second temporal resampling of midpoint prices
  (`taq_midpoint_second_data` and `itch_midpoint_second_data`),
* the order-book reconstruction engine
  (`itch_data_analysis_data_extraction.itch_midpoint_millisecond_data`),
* the order-linkage trade-sign classification
  (`itch_trade_signs_millisecond_data`),
* the per-day and per-week self-response aggregation
  (`taq_self_response_day/week_responses_second_data` and the identical
  `itch_` variants).

Modelling conventions, used throughout:

* numpy integer arrays are modelled by `List Int`;
  float arrays holding prices by `List ℚ` (every comparison made by the
  source on these floats is exact on the rational values involved for the
  inputs considered in the theorems below);
* numpy float division is modelled by rational division, except where the
  source can divide by zero: there the result is modelled as `Option ℚ`
  with `none` standing for the IEEE non-finite results (`nan` for `0/0`,
  `±inf` otherwise), which are never equal to `0`;
* a Python exception that escapes the function (IndexError, KeyError,
  AssertionError, numpy ValueError) is modelled by an `Except`/`Option`
  error value;
* Python's negative indexing (`a[-1]`) is translated explicitly at each
  use site.
-/

/-! ## Definitions: tick-rule classification (TAQ) -/

/-- `np.sign` on integers. -/
def np_sign (x : Int) : Int :=
  if 0 < x then 1 else if x < 0 then -1 else 0

/-- The body of the tick-rule loop of `taq_trade_signs_trade_data`
(lines 231–239): given the previous trade price `prev` and the previously
assigned sign `prevSign`, each price `a` receives
`np.sign (a - prev)` when the difference is nonzero and `prevSign` otherwise.
The source writes `identified_trades[t_idx]` from `identified_trades[t_idx-1]`
and `ask_t[t_idx-1]`; for `t_idx ≥ 1` those are the values produced by the
previous iteration, which is exactly this scan. -/
def tickScan (prev : Int) (prevSign : Int) : List Int → List Int
  | [] => []
  | a :: rest =>
      let s := if a - prev ≠ 0 then np_sign (a - prev) else prevSign
      s :: tickScan a s rest

/-- `taq_trade_signs_trade_data`, the tick-rule classification
(lines 224–242 of `taq_data_analysis_responses_second.py`), as a function of
the trade price series `ask_t`.

The source seeds `identified_trades[-1] = 1` and then loops
`for t_idx in range(len(time_t))`.  At `t_idx = 0` it reads
`ask_t[t_idx - 1] = ask_t[-1]` — numpy wraparound to the *last* price — and,
in the unchanged-price branch, `identified_trades[-1]`, which still holds the
seed `1` (the final loop iteration overwrites the seeded last slot).  Hence
the scan starts from the last price of the day and the seed sign `+1`.
On an empty input the source raises IndexError; we return `[]`. -/
def taq_trade_signs_trade_data (ask_t : List Int) : List Int :=
  match ask_t with
  | [] => []
  | a :: rest => tickScan (rest.getLastD a) 1 (a :: rest)

/-! ## Definitions: per-second resampling -/

/-- The integer grid `range(s, s+n)`, built lazily from the front. -/
def gridTimes (s : Int) : Nat → List Int
  | 0 => []
  | n + 1 => s :: gridTimes (s + 1) n

/-- The per-second grid `np.array(range(34800, 57000))` — seconds 09:40:00
to 15:49:59 — used by both `taq_midpoint_second_data` and
`itch_midpoint_second_data`. -/
def full_time : List Int := gridTimes 34800 22200

/-- `midpoint_trade[time_q == t][-1]`: the last observed value whose
timestamp equals `t` exactly (TAQ raw quote times are in seconds).  `none`
models an empty selection (for which the source's `[-1]` would raise
IndexError where it is reached). -/
def lastObsAt (time_q : List Int) (mid : List ℚ) (t : Int) : Option ℚ :=
  (((time_q.zip mid).filter (fun p => decide (p.1 = t))).getLast?).map Prod.snd

/-- `midpoint_ms[(time_ms >= t*1000) & (time_ms < (t+1)*1000)][-1]`: the last
observed value falling inside grid second `t`, for millisecond timestamps
(ITCH variant, lines 329–335). -/
def lastObsInSecond (time_ms : List Int) (mid : List ℚ) (t : Int) : Option ℚ :=
  (((time_ms.zip mid).filter
      (fun p => decide (t * 1000 ≤ p.1) && decide (p.1 < (t + 1) * 1000))).getLast?).map
    Prod.snd

/-- The forward-fill loop shared by `taq_midpoint_second_data`
(lines 134–141) and `itch_midpoint_second_data` (lines 329–337): each grid
second takes the last observation inside it, and otherwise the previous
slot's value (`midpoint[t_idx - 1]`).  At the first slot the source reads
index `-1` of the all-zero output array, i.e. the value `0`, which is the
initial `prev` passed by the callers below. -/
def gridFill (obsAt : Int → Option ℚ) (prev : ℚ) : List Int → List ℚ
  | [] => []
  | t :: ts =>
      let v := (obsAt t).getD prev
      v :: gridFill obsAt v ts

/-- The backward seeding scan of `taq_midpoint_second_data` (lines 145–147),
`while (not np.sum(time_q == t_pos)): t_pos -= 1`, modelled with explicit
fuel: the source itself has no bound and decrements `t_pos` forever when no
observation at or before the starting second exists. -/
def seedScanFuel (time_q : List Int) : Int → Nat → Option Int
  | _, 0 => none
  | t_pos, fuel + 1 =>
      if t_pos ∈ time_q then some t_pos
      else seedScanFuel time_q (t_pos - 1) fuel

/-- The seeding loop of `taq_midpoint_second_data` (lines 148–152):
`while (not midpoint[m_pos]): midpoint[m_pos] = seed; m_pos += 1`.  It
overwrites the leading zero slots with the seed value and stops at the first
nonzero slot; if it runs past the end of the grid the source raises
IndexError, modelled by `none`. -/
def seedLoop (seedVal : ℚ) : List ℚ → Option (List ℚ)
  | [] => none
  | x :: rest =>
      if x ≠ 0 then some (x :: rest)
      else (seedLoop seedVal rest).map (fun r => seedVal :: r)

/-- Error outcomes of the per-second resamplers. -/
inductive ResampleError where
  | gapScanHang   -- the backward scan of lines 145–147 never terminates
  | indexError    -- an out-of-bounds numpy access raises IndexError
  | assertZero    -- `assert not np.sum(midpoint == 0)` fails
  deriving DecidableEq

/-- `taq_midpoint_second_data` (lines 97–183 of
`taq_data_analysis_responses_second.py`), as a function of the raw quote
series `(time_q, midpoint_trade)` produced by `taq_midpoint_trade_data`.
The backward scan of lines 145–147 terminates exactly when some quote time
is at or before second 34800, in which case it stops at the greatest such
time (see the `seedScanFuel` theorems below); when no such time exists the
source loops forever, recorded here as `gapScanHang`. -/
def taq_midpoint_second_data (time_q : List Int) (midpoint_trade : List ℚ) :
    Except ResampleError (List ℚ) :=
  let midpoint := gridFill (lastObsAt time_q midpoint_trade) 0 full_time
  match (time_q.filter (fun t => decide (t ≤ 34800))).max? with
  | none => .error .gapScanHang
  | some t_pos =>
      match lastObsAt time_q midpoint_trade t_pos with
      | none => .error .indexError
      | some seedVal =>
          match seedLoop seedVal midpoint with
          | none => .error .indexError
          | some seeded =>
              if seeded.any (fun x => decide (x = 0)) then .error .assertZero
              else .ok seeded

/-- `itch_midpoint_second_data` (lines 301–346 of
`itch_data_analysis_data_extraction.py`), as a function of the millisecond
midpoint series.  Unlike the TAQ variant it has no backward seeding step:
the forward fill is followed directly by `assert not np.sum(midpoint_s == 0)`. -/
def itch_midpoint_second_data (time_ms : List Int) (midpoint_ms : List ℚ) :
    Except ResampleError (List ℚ) :=
  let midpoint_s := gridFill (lastObsInSecond time_ms midpoint_ms) 0 full_time
  if midpoint_s.any (fun x => decide (x = 0)) then .error .assertZero
  else .ok midpoint_s

/-! ## Definitions: self-response aggregation -/

/-- `__tau__ = 1000`, the fixed bank of lag values. -/
def __tau__ : Nat := 1000

/-- The per-day self-response loop shared verbatim by
`taq_self_response_day_responses_second_data` (lines 357–379 of
`taq_data_analysis_responses_second.py`) and
`itch_self_response_day_responses_second_data` (lines 73–95 of
`itch_data_analysis_responses_second.py`).  For each lag index:
`trade_sign_tau = trade_sign[:-tau-1]`, `num = len(trade_sign_tau != 0)`
(count of nonzero signs), midpoint returns
`(midpoint[tau+1:] - midpoint[:-tau-1]) / midpoint[:-tau-1]`, and the
response is the sum of returns times signs, computed only when `num ≠ 0`
(otherwise the slot keeps its initial `0`). -/
def self_response_day_lag (midpoint trade_sign : List ℚ) (tau_idx : Nat) :
    ℚ × ℚ :=
  let trade_sign_tau := trade_sign.take (trade_sign.length - (tau_idx + 1))
  let num : ℚ := ((trade_sign_tau.filter (fun s => decide (s ≠ 0))).length : ℚ)
  let log_return_sec := List.zipWith (fun a b => (a - b) / b)
    (midpoint.drop (tau_idx + 1))
    (midpoint.take (midpoint.length - (tau_idx + 1)))
  let r : ℚ :=
    if num ≠ 0
    then (List.zipWith (fun a b => a * b) log_return_sec trade_sign_tau).sum
    else 0
  (r, num)

/-- The two output vectors `(self_response_tau, num)` of the per-day loop:
slot `tau_idx` of each holds the components of `self_response_day_lag`. -/
def self_response_day_core (midpoint trade_sign : List ℚ) :
    List ℚ × List ℚ :=
  (((List.range __tau__).map (self_response_day_lag midpoint trade_sign)).map
      Prod.fst,
   ((List.range __tau__).map (self_response_day_lag midpoint trade_sign)).map
      Prod.snd)

/-- `taq_self_response_day_responses_second_data` (lines 324–388).  The input
is `some (midpoint, trade_sign)` when the day's pickle files exist and `none`
when loading raises FileNotFoundError, in which case the source prints
'No data' and returns `(np.zeros(__tau__), np.zeros(__tau__))`.  The
`assert len(midpoint) == len(trade_sign)` is modelled as an error. -/
def taq_self_response_day_responses_second_data
    (input : Option (List ℚ × List ℚ)) : Except String (List ℚ × List ℚ) :=
  match input with
  | none => .ok (List.replicate __tau__ 0, List.replicate __tau__ 0)
  | some (midpoint, trade_sign) =>
      if midpoint.length = trade_sign.length
      then .ok (self_response_day_core midpoint trade_sign)
      else .error "AssertionError"

/-- `itch_self_response_day_responses_second_data` (lines 40–104 of
`itch_data_analysis_responses_second.py`); the body is character-for-character
the same computation as the TAQ variant above. -/
def itch_self_response_day_responses_second_data
    (input : Option (List ℚ × List ℚ)) : Except String (List ℚ × List ℚ) :=
  match input with
  | none => .ok (List.replicate __tau__ 0, List.replicate __tau__ 0)
  | some (midpoint, trade_sign) =>
      if midpoint.length = trade_sign.length
      then .ok (self_response_day_core midpoint trade_sign)
      else .error "AssertionError"

/-- `np.sum(self_values[0], axis=0)` on one component: the elementwise sum of
the per-day vectors (numpy requires the days to share one length; on the
equal-length inputs considered here `zipWith` agrees with it). -/
def vecSum (xs : List (List ℚ)) : List ℚ :=
  match xs with
  | [] => []
  | v :: rest => rest.foldl (fun acc w => List.zipWith (fun a b => a + b) acc w) v

/-- numpy float division as used at line 426/142: `0/0` gives `nan` and
`x/0` (x ≠ 0) gives `±inf` (with a RuntimeWarning, not an exception); every
non-finite result is modelled as `none`. -/
def np_div (r n : ℚ) : Option ℚ := if n = 0 then none else some (r / n)

/-- `taq_self_response_week_responses_second_data` (lines 393–434), reduced
to its arithmetic: the per-day `(R, N)` pairs (produced by the parallel map
over dates) are summed elementwise and the response is `ΣR / ΣN`, with no
guard on `ΣN = 0`; the function returns `(response, ΣN)`. -/
def taq_self_response_week_responses_second_data
    (self_values : List (List ℚ × List ℚ)) : List (Option ℚ) × List ℚ :=
  let sumR := vecSum (self_values.map Prod.fst)
  let sumN := vecSum (self_values.map Prod.snd)
  (List.zipWith np_div sumR sumN, sumN)

/-- `itch_self_response_week_responses_second_data` (lines 109–150 of
`itch_data_analysis_responses_second.py`); same computation as the TAQ
variant. -/
def itch_self_response_week_responses_second_data
    (self_values : List (List ℚ × List ℚ)) : List (Option ℚ) × List ℚ :=
  let sumR := vecSum (self_values.map Prod.fst)
  let sumN := vecSum (self_values.map Prod.snd)
  (List.zipWith np_div sumR sumN, sumN)

/-! ## Definitions: order-book reconstruction engine
(`itch_midpoint_millisecond_data`, lines 36–296 of
`itch_data_analysis_data_extraction.py`)

Price units: the raw CSV carries integer prices in 1e-4 currency units.  The
source converts to float dollars (`price / 10000`) and builds a one-cent
price grid `valuesP = minP + 0.01 * arange(n)`.  We work in integer *cents*
throughout: `valuesP[j]` becomes `minP + j` with `minP` in cents, the float
sentinel `bestAsk = 10000000.` dollars becomes `1000000000` cents and
`bestBid = 0.` stays `0`.  Every float comparison the source makes is between
members of `valuesP` and these two sentinels, so the integer-cent order is
exactly the float order.  `round(x, 2)` / `int(round(x))` round half to even
on floats; we use round half up (`Int.fdiv (… + 50) 100`), which agrees
everywhere except at exact half-cent midpoints (none of the theorems below
involves such a tie). -/

/-- One raw event row (columns Time, Order, T, Price), with the type letter
already mapped as at lines 79–86: 1 `B` AddBuy, 2 `S` AddSell,
3 `E` ExecutePartial, 4 `C` CancelPartial, 5 `F` ExecuteFull,
6 `D` DeleteFull, 7 `X` CrossTrade, 8 `T` ExecuteHidden. -/
structure ItchEvent where
  time : Int
  id : Int
  typ : Nat
  price : Int
  deriving DecidableEq

/-- An event after the reference pass (lines 113–143): `typ_ref`/`price_ref`
are `0`/own price for adds, and the referenced add's type/price for
`E`/`C`/`F`/`D` events. -/
structure RefEvent where
  time : Int
  typ : Nat
  typ_ref : Nat
  price_ref : Int
  deriving DecidableEq

/-- A `(bestTimes, bestAsks, bestBids)` entry (lines 259–262); quote values
in integer cents. -/
structure BookRec where
  time : Int
  bestAsk : Int
  bestBid : Int
  deriving DecidableEq

/-- Errors of the reconstruction pass. -/
inductive BookError where
  | unknownOrderId    -- KeyError at line 134: event references an unseen id
  | insufficientData  -- `.min()`/`.max()` of an empty executed-price set
  | emptyBookSide     -- recompute `.min()`/`.max()` over an empty selection
  deriving DecidableEq

/-- The reference pass (lines 94–143): `newids` maps an order id to its most
recent `B`/`S` add (dict assignment overwrites), and each `E`/`C`/`F`/`D`
event receives the referenced add's price and type; an unseen id raises
KeyError.  The association list keeps the latest add first, so `find?`
models the dict lookup. -/
def itch_resolve (assoc : List (Int × ItchEvent)) :
    List ItchEvent → Option (List RefEvent)
  | [] => some []
  | e :: rest =>
      if e.typ < 3 then
        (itch_resolve ((e.id, e) :: assoc) rest).map
          (fun out => ⟨e.time, e.typ, 0, e.price⟩ :: out)
      else
        match assoc.find? (fun p => decide (p.1 = e.id)) with
        | none => none
        | some (_, add) =>
            (itch_resolve assoc rest).map
              (fun out => ⟨e.time, e.typ, add.typ, add.price⟩ :: out)

/-- The price range (lines 149–155): `minP = round(0.9 * pmin, 2)` and
`maxP = round(1.1 * pmax, 2)` over the `price_ref` of `ExecuteFull`
(`types == 5`) events, in cents (`round(9*p/1000)` resp. `round(11*p/1000)`
of the 1e-4-unit price), and the level count
`n = int((maxP - minP)/0.01) = maxP_c - minP_c`.  An empty executed set makes
`.min()` raise ValueError. -/
def itch_price_range (refs : List RefEvent) : Option (Int × Nat) :=
  let ps := (refs.filter (fun e => decide (e.typ = 5))).map RefEvent.price_ref
  match ps.min?, ps.max? with
  | some pmin, some pmax =>
      let minP := Int.fdiv (9 * pmin + 500) 1000
      let maxP := Int.fdiv (11 * pmax + 500) 1000
      some (minP, (maxP - minP).toNat)
  | _, _ => none

/-- `valuesP[j]` in cents. -/
def valP (minP : Int) (j : Nat) : Int := minP + j

/-- `myPriceIndex = int(round((price/10000 - minP)/0.01))` (lines 184–185),
in exact arithmetic `round(price/100 - minP_c)` (round half up; see the
section comment). -/
def myPriceIndex (minP : Int) (price : Int) : Int :=
  Int.fdiv (price - 100 * minP + 50) 100

/-- The mutable state of the reconstruction loop (lines 158–175):
per-level outstanding counts (dense arrays modelled as functions from the
level index), current best quotes in cents, and the emitted record list. -/
structure BookState where
  nAsk : Nat → Int
  nBid : Nat → Int
  bestAsk : Int
  bestBid : Int
  records : List BookRec

/-- Initial book (lines 158–175): counts all zero except the sentinel
entries `nAsk[-1] = 1` and `nBid[0] = 1`; `bestAsk = 10000000.` dollars
(`1000000000` cents), `bestBid = 0.`. -/
def initBook (nLevels : Nat) : BookState :=
  { nAsk := fun j => if j = nLevels - 1 then 1 else 0
    nBid := fun j => if j = 0 then 1 else 0
    bestAsk := 1000000000
    bestBid := 0
    records := [] }

/-- One iteration of the reconstruction loop (lines 180–264).  Out-of-range
prices are ignored for book purposes; a sell (buy) add landing on an empty
level lowers (raises) the best quote; an `F`/`D` event decrements the
referenced level on the side given by `typ_ref` and, when it empties the
level currently holding the best quote, recomputes the best as
`valuesP[nAsk > 0].min()` (resp. `.max()`); numpy raises ValueError when
that selection is empty.  A record is emitted whenever either best quote
differs from its value before the event. -/
def bookStep (minP : Int) (nLevels : Nat) (st : BookState) (e : RefEvent) :
    Except BookError BookState :=
  let idx := myPriceIndex minP e.price_ref
  let core : Except BookError BookState :=
    if 0 ≤ idx ∧ idx < (nLevels : Int) then
      let j := idx.toNat
      if e.typ = 2 then
        .ok { st with
          bestAsk := if st.nAsk j = 0 then min st.bestAsk (valP minP j)
                     else st.bestAsk
          nAsk := Function.update st.nAsk j (st.nAsk j + 1) }
      else if e.typ = 1 then
        .ok { st with
          bestBid := if st.nBid j = 0 then max st.bestBid (valP minP j)
                     else st.bestBid
          nBid := Function.update st.nBid j (st.nBid j + 1) }
      else if e.typ = 5 ∨ e.typ = 6 then
        if e.typ_ref = 2 then
          let nAsk' := Function.update st.nAsk j (st.nAsk j - 1)
          if nAsk' j = 0 ∧ valP minP j = st.bestAsk then
            match (((List.range nLevels).filter
                (fun k => decide (0 < nAsk' k))).map (valP minP)).min? with
            | none => .error .emptyBookSide
            | some v => .ok { st with nAsk := nAsk', bestAsk := v }
          else .ok { st with nAsk := nAsk' }
        else
          let nBid' := Function.update st.nBid j (st.nBid j - 1)
          if nBid' j = 0 ∧ valP minP j = st.bestBid then
            match (((List.range nLevels).filter
                (fun k => decide (0 < nBid' k))).map (valP minP)).max? with
            | none => .error .emptyBookSide
            | some v => .ok { st with nBid := nBid', bestBid := v }
          else .ok { st with nBid := nBid' }
      else .ok st
    else .ok st
  core.map (fun st' =>
    if st'.bestAsk ≠ st.bestAsk ∨ st'.bestBid ≠ st.bestBid then
      { st' with records :=
          st'.records ++ [⟨e.time, st'.bestAsk, st'.bestBid⟩] }
    else st')

/-- The reconstruction loop over the whole event sequence. -/
def bookRun (minP : Int) (nLevels : Nat) (st : BookState) :
    List RefEvent → Except BookError BookState
  | [] => .ok st
  | e :: rest =>
      match bookStep minP nLevels st e with
      | .error err => .error err
      | .ok st' => bookRun minP nLevels st' rest

/-- `itch_midpoint_millisecond_data` (lines 36–296): filter out `X`/`T`
events (`types_ < 7`), resolve order references, compute the price range
from fully executed orders, replay the book, and restrict the emitted
records to the open-market time filter
`(timesS/3600/1000 > 9.5) & (timesS/3600/1000 < 16)`, which on integer
milliseconds is exactly `34200000 < t < 57600000` (09:30–16:00).  The
returned midpoint and spread series are `(bestAsk + bestBid)/2` and
`bestAsk - bestBid` over the same filtered records, so the record list
carries all their data.  A zero-width price grid (`valuesP` empty) makes
line 155's `.max()` raise ValueError. -/
def itch_midpoint_millisecond_data (events : List ItchEvent) :
    Except BookError (List BookRec) :=
  let evs := events.filter (fun e => decide (e.typ < 7))
  match itch_resolve [] evs with
  | none => .error .unknownOrderId
  | some refs =>
      match itch_price_range refs with
      | none => .error .insufficientData
      | some (minP, nLevels) =>
          if nLevels = 0 then .error .insufficientData
          else
            match bookRun minP nLevels (initBook nLevels) refs with
            | .error err => .error err
            | .ok st =>
                .ok (st.records.filter (fun r =>
                  decide (34200000 < r.time) && decide (r.time < 57600000)))

/-! ## Definitions: order-linkage trade-sign classification
(`itch_trade_signs_millisecond_data`, lines 351–493) -/

/-- One raw CSV row for the trade-sign pass (columns Time, Order, T, Shares,
Price).  `price` is kept in the raw 1e-4 currency units; the source divides
by 10000 once at load and afterwards only copies the values, so the scale is
a display constant.  `shares` is a numpy uint16. -/
structure RawTrade where
  time : Int
  order : Int
  typ : Char
  shares : Int
  price : Int
  deriving DecidableEq

/-- An output row `(trade_times, trade_signs, trade_volumes, trade_price)`. -/
structure TradeRec where
  time : Int
  sign : Int
  volume : Int
  price : Int
  deriving DecidableEq

/-- `3*(T=='E') + 4*(T=='F') + 5*(T=='T')` (lines 391–393). -/
def tradeTypeCode (c : Char) : Int :=
  (if c = 'E' then 3 else 0) + (if c = 'F' then 4 else 0) +
    (if c = 'T' then 5 else 0)

/-- `len(arr != v)`: numpy `arr != v` is a boolean mask with one entry per
element, so `len` of it is the length of `arr`, not the count of mismatches. -/
def np_len_ne (xs : List Int) (v : Int) : Nat :=
  (xs.map (fun x => decide (x ≠ v))).length

/-- The matching loop (lines 421–466).  State: the mutable
`limit_data_order` and `limit_data_volume` arrays; `lTyp`/`lPrice` are read
only.  Per trade `(order, typecode, shares)`:
`np.where(limit_data_order == order)[0][0]` finds the first matching resting
order (IndexError → `pass`, leaving sign/volume/price `0`); on a match the
sign is `+1` for a consumed sell, `-1` otherwise; an `F` (code 4) consumes
the resting volume and tombstones the order id to `0`; otherwise (`E` code 3
*and hidden `T` code 5*) the trade's own volume is used and the resting
volume is decremented — `diff_volumes` is computed in uint16 arithmetic, so
`assert diff_volumes > 0` fails exactly when the difference is `0`
mod 65536. -/
def strategyA_loop (lOrd lVol lTyp lPrice : List Int) :
    List (Int × Int × Int) → Except String (List (Int × Int × Int))
  | [] => .ok []
  | (ord, tcode, shares) :: rest =>
      match lOrd.findIdx? (fun o => decide (o = ord)) with
      | none =>
          (strategyA_loop lOrd lVol lTyp lPrice rest).map
            (fun out => (0, 0, 0) :: out)
      | some l =>
          let sign : Int := if lTyp.getD l 0 = 1 then 1 else -1
          let price := lPrice.getD l 0
          if tcode = 4 then
            (strategyA_loop (lOrd.set l 0) lVol lTyp lPrice rest).map
              (fun out => (sign, lVol.getD l 0, price) :: out)
          else
            let diff := (lVol.getD l 0 - shares).emod 65536
            if diff = 0 then .error "AssertionError: diff_volumes > 0"
            else
              (strategyA_loop lOrd (lVol.set l diff) lTyp lPrice rest).map
                (fun out => (sign, shares, price) :: out)

/-- The hidden-trade overwrite (lines 470–475) fused with row assembly:
a trade record's output row carries its own time; hidden trades
(`trade_data_types == 5`) get their *volume and price* replaced by the trade
record's own `Shares`/`Price` fields, while the sign keeps whatever the
matching loop produced. -/
def assembleTradeRec (r : RawTrade) (o : Int × Int × Int) : TradeRec :=
  if tradeTypeCode r.typ = 5
  then TradeRec.mk r.time o.1 r.shares r.price
  else TradeRec.mk r.time o.1 o.2.1 o.2.2

/-- `itch_trade_signs_millisecond_data` (lines 351–493): select trades
(`E`/`F`/`T`) and resting limit orders (`B`/`S` whose id appears among the
trades), run the matching loop, check
`assert len(trade_signs != 0) == len(trade_data_types != 5)`, overwrite the
*volume and price* (not the sign) of hidden trades with the trade record's
own fields (lines 473–475), and filter to the open-market time
`(t/3600/1000 >= 9.5) & (t/3600/1000 < 16)`, i.e.
`34200000 ≤ t < 57600000` on integer milliseconds. -/
def itch_trade_signs_millisecond_data (data : List RawTrade) :
    Except String (List TradeRec) :=
  let trade_data := data.filter (fun r =>
    decide (r.typ = 'E') || decide (r.typ = 'F') || decide (r.typ = 'T'))
  let trade_codes : List Int := trade_data.map (fun r => tradeTypeCode r.typ)
  let limit_data := (data.filter (fun r =>
      decide (r.typ = 'B') || decide (r.typ = 'S'))).filter
    (fun r => decide (r.order ∈ trade_data.map RawTrade.order))
  let lOrd := limit_data.map RawTrade.order
  let lVol := limit_data.map RawTrade.shares
  let lTyp : List Int := limit_data.map (fun r => if r.typ = 'S' then 1 else -1)
  let lPrice := limit_data.map RawTrade.price
  match strategyA_loop lOrd lVol lTyp lPrice
      (trade_data.map (fun r => (r.order, tradeTypeCode r.typ, r.shares))) with
  | .error e => .error e
  | .ok outs =>
      if np_len_ne (outs.map Prod.fst) 0 = np_len_ne trade_codes 5 then
        let recs := List.zipWith assembleTradeRec trade_data outs
        .ok (recs.filter (fun rec =>
          decide (34200000 ≤ rec.time) && decide (rec.time < 57600000)))
      else
        .error "AssertionError: len(trade_signs != 0) == len(trade_data_types != 5)"

/-- Proof scaffolding for the book engine: the inductive invariant of the
replay loop.  `okAsk`/`okBid` delimit the level indices that can ever hold a
positive count on each side (the sentinel index plus the indices of the
corresponding adds); the best quotes are either their float sentinels
(`1000000000` cents / `0`) or the value of an allowed level; every emitted
record and the current state satisfy bid ≤ ask. -/
def BookInv (okAsk okBid : Nat → Prop) (nLevels : Nat) (minP : Int)
    (st : BookState) : Prop :=
  (∀ j, j < nLevels → 0 < st.nAsk j → okAsk j) ∧
  (∀ j, j < nLevels → 0 < st.nBid j → okBid j) ∧
  (st.bestAsk = 1000000000 ∨
    ∃ j, j < nLevels ∧ okAsk j ∧ st.bestAsk = valP minP j) ∧
  (st.bestBid = 0 ∨
    ∃ j, j < nLevels ∧ okBid j ∧ st.bestBid = valP minP j) ∧
  (∀ r ∈ st.records, r.bestBid ≤ r.bestAsk) ∧
  st.bestBid ≤ st.bestAsk

/-! ## Theorems: resampler auxiliary lemmas -/

theorem gridTimes_length (s : Int) (n : Nat) : (gridTimes s n).length = n := by
  induction n generalizing s with
  | zero => rfl
  | succ m ih => simp [gridTimes, ih]

theorem gridTimes_mem (s : Int) (n : Nat) (x : Int) :
    x ∈ gridTimes s n ↔ s ≤ x ∧ x < s + n := by
  induction n generalizing s with
  | zero => simp [gridTimes]
  | succ m ih =>
    simp only [gridTimes, List.mem_cons, ih]
    constructor
    · rintro (rfl | ⟨h1, h2⟩)
      · exact ⟨le_refl x, by omega⟩
      · exact ⟨by omega, by push_cast at h2 ⊢; omega⟩
    · rintro ⟨h1, h2⟩
      rcases eq_or_lt_of_le h1 with rfl | hlt
      · exact Or.inl rfl
      · exact Or.inr ⟨by omega, by push_cast at h2 ⊢; omega⟩

theorem gridFill_length (obsAt : Int → Option ℚ) (prev : ℚ) (ts : List Int) :
    (gridFill obsAt prev ts).length = ts.length := by
  induction ts generalizing prev with
  | nil => rfl
  | cons t rest ih => simp [gridFill, ih]

theorem seedScanFuel_none_of_gt (time_q : List Int) (fuel : Nat) (t_pos : Int)
    (h : ∀ t ∈ time_q, t_pos < t) :
    seedScanFuel time_q t_pos fuel = none := by
  induction fuel generalizing t_pos with
  | zero => rfl
  | succ n ih =>
    have hmem : t_pos ∉ time_q := fun hm => absurd (h t_pos hm) (lt_irrefl t_pos)
    simp only [seedScanFuel, if_neg hmem]
    exact ih (t_pos - 1) (fun t ht => lt_trans (by omega) (h t ht))

theorem lastObsAt_isSome_of_mem (time_q : List Int) (mid : List ℚ) (t : Int)
    (hmem : t ∈ time_q) (hlen : time_q.length = mid.length) :
    (lastObsAt time_q mid t).isSome := by
  induction time_q generalizing mid with
  | nil => simp at hmem
  | cons a rest ih =>
    cases mid with
    | nil => simp at hlen
    | cons b mrest =>
      by_cases hat : a = t
      · subst hat
        simp [lastObsAt, List.zip_cons_cons, List.filter_cons, List.getLast?_cons]
      · have ht : t ∈ rest := by
          rcases List.mem_cons.mp hmem with h | h
          · exact absurd h.symm hat
          · exact h
        have := ih mrest ht (by simpa using hlen)
        simpa [lastObsAt, List.zip_cons_cons, List.filter_cons, hat] using this

theorem lastObsAt_mem (time_q : List Int) (mid : List ℚ) (t : Int) (v : ℚ)
    (h : lastObsAt time_q mid t = some v) : v ∈ mid := by
  unfold lastObsAt at h
  rcases Option.map_eq_some'.mp h with ⟨p, hp, hpv⟩
  have hpl : p ∈ (time_q.zip mid).filter (fun p => decide (p.1 = t)) := by
    rcases List.mem_getLast?_eq_getLast (show p ∈ _ from hp) with ⟨hne, hpe⟩
    exact hpe ▸ List.getLast_mem hne
  have hpz : p ∈ time_q.zip mid := (List.mem_filter.mp hpl).1
  have := (List.of_mem_zip hpz).2
  simpa [hpv] using this

theorem gridFill_ne_zero (obsAt : Int → Option ℚ)
    (hobs : ∀ t v, obsAt t = some v → v ≠ 0) (prev : ℚ) (hprev : prev ≠ 0)
    (ts : List Int) : ∀ x ∈ gridFill obsAt prev ts, x ≠ 0 := by
  induction ts generalizing prev with
  | nil => simp [gridFill]
  | cons t rest ih =>
    intro x hx
    have hv : (obsAt t).getD prev ≠ 0 := by
      cases hob : obsAt t with
      | none => simpa using hprev
      | some w => simpa using hobs t w hob
    simp only [gridFill, List.mem_cons] at hx
    rcases hx with rfl | hx
    · exact hv
    · exact ih _ hv x hx

theorem seedLoop_of_nonzero (seed : ℚ) (l : List ℚ) (hne : l ≠ [])
    (h : ∀ x ∈ l, x ≠ 0) : seedLoop seed l = some l := by
  cases l with
  | nil => exact absurd rfl hne
  | cons x rest => simp [seedLoop, h x (List.mem_cons_self x rest)]

theorem seedLoop_gridFill (obsAt : Int → Option ℚ)
    (hobs : ∀ t v, obsAt t = some v → v ≠ 0) (seed : ℚ) (hseed : seed ≠ 0)
    (ts : List Int) (prev : ℚ) (hex : ∃ t ∈ ts, (obsAt t).isSome) :
    ∃ g, seedLoop seed (gridFill obsAt prev ts) = some g ∧
      (∀ x ∈ g, x ≠ 0) ∧ g.length = ts.length := by
  induction ts generalizing prev with
  | nil => simp at hex
  | cons t rest ih =>
    cases hob : obsAt t with
    | some w =>
      have hw : w ≠ 0 := hobs t w hob
      have hall : ∀ x ∈ gridFill obsAt prev (t :: rest), x ≠ 0 := by
        intro x hx
        simp only [gridFill, hob, Option.getD_some, List.mem_cons] at hx
        rcases hx with rfl | hx
        · exact hw
        · exact gridFill_ne_zero obsAt hobs w hw rest x hx
      refine ⟨gridFill obsAt prev (t :: rest), ?_, hall, gridFill_length _ _ _⟩
      exact seedLoop_of_nonzero seed _ (by simp [gridFill]) hall
    | none =>
      have hex' : ∃ t' ∈ rest, (obsAt t').isSome := by
        rcases hex with ⟨t', ht', hs⟩
        rcases List.mem_cons.mp ht' with rfl | hmem
        · rw [hob] at hs; simp at hs
        · exact ⟨t', hmem, hs⟩
      by_cases hprev : prev = 0
      · subst hprev
        rcases ih 0 hex' with ⟨g, hg, hgnz, hglen⟩
        refine ⟨seed :: g, ?_, ?_, by simp [hglen]⟩
        · simp [gridFill, hob, seedLoop, hg]
        · intro x hx
          rcases List.mem_cons.mp hx with rfl | hx
          · exact hseed
          · exact hgnz x hx
      · have hall : ∀ x ∈ gridFill obsAt prev (t :: rest), x ≠ 0 := by
          intro x hx
          simp only [gridFill, hob, Option.getD_none, List.mem_cons] at hx
          rcases hx with rfl | hx
          · exact hprev
          · exact gridFill_ne_zero obsAt hobs prev hprev rest x hx
        refine ⟨gridFill obsAt prev (t :: rest), ?_, hall, gridFill_length _ _ _⟩
        exact seedLoop_of_nonzero seed _ (by simp [gridFill]) hall

/-! ## Theorems: resampler claims (C6, C7) -/

/-- C7: when the raw quote series has no observation at or before the first
grid second (34800 s), the backward-seeding scan of
`taq_midpoint_second_data` never terminates, no matter how many iterations
it is granted — the source loops forever instead of failing with a
`ResampleGapError`.  Concretely, on a series with a single quote at
t = 40000 s the fuelled scan returns `none` for every fuel, and the embedded
function records the hang. -/
theorem taq_seed_scan_divergence :
    (∀ fuel : Nat, seedScanFuel [40000] 34800 fuel = none) ∧
    taq_midpoint_second_data [40000] [5] = .error .gapScanHang := by
  constructor
  · intro fuel
    exact seedScanFuel_none_of_gt [40000] fuel 34800 (by intro t ht; simp at ht; omega)
  · rfl

/-- C6 (counterexample): the ITCH per-second variant has no backward
seeding.  With a prior observation at 34700000 ms (09:38:20, value 5) and
the first in-window observation only inside second 34801, the first grid
slot is left `0` (the claimed behaviour would seed it with 5), and the
function fails its final `assert not np.sum(midpoint_s == 0)`. -/
theorem itch_second_no_backward_seed :
    itch_midpoint_second_data [34700000, 34801500] [5, 6] = .error .assertZero := by
  rfl

/-- C6 (amended): only the TAQ variant seeds backward.  For every quote
series with nonzero midpoints, at least one observation at or before the
first grid second 34800 and at least one observation inside the grid window
`[34800, 57000)`, `taq_midpoint_second_data` succeeds and every grid slot —
the first one in particular — is nonzero.  (The ITCH variant instead fails
its final assertion whenever the first grid second has no observation; see
the counterexample.) -/
theorem taq_midpoint_first_second_seeded (time_q : List Int)
    (midpoint_trade : List ℚ)
    (hlen : time_q.length = midpoint_trade.length)
    (hnz : ∀ m ∈ midpoint_trade, m ≠ 0)
    (hseed : ∃ t ∈ time_q, t ≤ 34800)
    (hwin : ∃ t ∈ time_q, 34800 ≤ t ∧ t < 57000) :
    ∃ g, taq_midpoint_second_data time_q midpoint_trade = .ok g ∧
      g.length = 22200 ∧ (∀ x ∈ g, x ≠ 0) ∧ g.getD 0 0 ≠ 0 := by
  -- The backward scan stops at the greatest quote time at or before 34800.
  rcases hseed with ⟨t0, ht0, ht0le⟩
  have hfil : t0 ∈ time_q.filter (fun t => decide (t ≤ 34800)) :=
    List.mem_filter.mpr ⟨ht0, by simpa using ht0le⟩
  have hsome := List.isSome_max?_of_mem hfil
  rcases Option.isSome_iff_exists.mp hsome with ⟨t_pos, hmax⟩
  have ht_pos_mem : t_pos ∈ time_q :=
    (List.mem_filter.mp
      (List.max?_mem (fun a b => max_choice a b) hmax)).1
  -- The seed value exists and is a midpoint value, hence nonzero.
  have hseedSome := lastObsAt_isSome_of_mem time_q midpoint_trade t_pos ht_pos_mem hlen
  rcases Option.isSome_iff_exists.mp hseedSome with ⟨seedVal, hseedEq⟩
  have hseedNz : seedVal ≠ 0 :=
    hnz seedVal (lastObsAt_mem time_q midpoint_trade t_pos seedVal hseedEq)
  -- Some grid second has an observation.
  have hex : ∃ t ∈ full_time, (lastObsAt time_q midpoint_trade t).isSome := by
    rcases hwin with ⟨t1, ht1, h1, h2⟩
    refine ⟨t1, ?_, lastObsAt_isSome_of_mem time_q midpoint_trade t1 ht1 hlen⟩
    rw [full_time, gridTimes_mem]
    constructor
    · exact h1
    · omega
  -- Seeding therefore succeeds and leaves no zero slot.
  rcases seedLoop_gridFill (lastObsAt time_q midpoint_trade)
      (fun t v hv => hnz v (lastObsAt_mem time_q midpoint_trade t v hv))
      seedVal hseedNz full_time 0 hex with ⟨g, hg, hgnz, hglen⟩
  refine ⟨g, ?_, ?_, hgnz, ?_⟩
  · have hany : g.any (fun x => decide (x = 0)) = false := by
      rw [List.any_eq_false]
      intro x hx
      simpa using hgnz x hx
    simp only [taq_midpoint_second_data, hmax, hseedEq, hg, hany,
      Bool.false_eq_true, if_false]
  · rw [hglen, full_time, gridTimes_length]
  · have hne : g ≠ [] := by
      intro hempty
      rw [hempty] at hglen
      have : (22200 : Nat) = 0 := by
        simpa [full_time, gridTimes_length] using hglen.symm
      omega
    cases g with
    | nil => exact absurd rfl hne
    | cons x rest => exact hgnz x (List.mem_cons_self x rest)

/-- C6 (witness): the amended seeding theorem instantiated at the one-quote
series `time_q = [34800]`, `midpoint_trade = [5]`. -/
theorem taq_midpoint_first_second_seeded_witness :
    (([34800] : List Int).length = ([5] : List ℚ).length ∧
      (∀ m ∈ ([5] : List ℚ), m ≠ 0) ∧
      (∃ t ∈ ([34800] : List Int), t ≤ 34800) ∧
      (∃ t ∈ ([34800] : List Int), 34800 ≤ t ∧ t < 57000)) ∧
    ∃ g, taq_midpoint_second_data [34800] [5] = .ok g ∧
      g.length = 22200 ∧ (∀ x ∈ g, x ≠ 0) ∧ g.getD 0 0 ≠ 0 :=
  ⟨⟨by decide, by decide, by decide, by decide⟩,
    taq_midpoint_first_second_seeded [34800] [5] (by decide) (by decide)
      (by decide) (by decide)⟩

/-! ## Theorems: tick rule (claim C1) -/

theorem tickScan_length (prev prevSign : Int) (l : List Int) :
    (tickScan prev prevSign l).length = l.length := by
  induction l generalizing prev prevSign with
  | nil => rfl
  | cons a rest ih => simp [tickScan, ih]

theorem taq_trade_signs_trade_data_length (ask_t : List Int) :
    (taq_trade_signs_trade_data ask_t).length = ask_t.length := by
  cases ask_t with
  | nil => rfl
  | cons a rest => simp [taq_trade_signs_trade_data, tickScan, tickScan_length]

theorem tickScan_getD_succ (l : List Int) (prev prevSign : Int) (i : Nat)
    (hi : i + 1 < l.length) :
    (tickScan prev prevSign l).getD (i + 1) 0 =
      (if l.getD (i + 1) 0 ≠ l.getD i 0
        then np_sign (l.getD (i + 1) 0 - l.getD i 0)
        else (tickScan prev prevSign l).getD i 0) := by
  induction l generalizing prev prevSign i with
  | nil => simp at hi
  | cons a rest ih =>
    cases i with
    | zero =>
      cases rest with
      | nil => simp at hi
      | cons b rest' => simp [tickScan, sub_ne_zero]
    | succ j =>
      have hj : j + 1 < rest.length := by simpa using hi
      simpa [tickScan] using ih a _ j hj

/-- C1 (counterexample): on the price series `[10, 10, 9, 11]` the source's
tick rule produces `[-1, -1, -1, +1]`, not the claimed `[+1, +1, -1, +1]`:
at index 0 the source compares `ask_t[0]` with `ask_t[-1] = 11` (numpy
wraparound), giving `sign(10 - 11) = -1`, which then carries forward through
the unchanged price at index 1. -/
theorem taq_tick_rule_counterexample :
    taq_trade_signs_trade_data [10, 10, 9, 11] = [-1, -1, -1, 1] ∧
    taq_trade_signs_trade_data [10, 10, 9, 11] ≠ [1, 1, -1, 1] := by
  constructor
  · rfl
  · decide

/-- C1 (amended): for every nonempty trade price series, the sign of trade
`i ≥ 1` is `sign(price[i] - price[i-1])` when the difference is nonzero and is
carried forward from trade `i-1` when the price is unchanged; trade `0` is
compared against the *last* price of the day (numpy index `-1` wraparound),
receiving the seed `+1` only when `price[0]` equals the last price.  On
`[10, 10, 9, 11]` this yields `[-1, -1, -1, +1]`. -/
theorem taq_tick_rule_boundary (ask : List Int) (h : ask ≠ []) :
    taq_trade_signs_trade_data [10, 10, 9, 11] = [-1, -1, -1, 1] ∧
    (taq_trade_signs_trade_data ask).getD 0 0 =
      (if ask.getD 0 0 ≠ ask.getLastD 0
        then np_sign (ask.getD 0 0 - ask.getLastD 0) else 1) ∧
    ∀ i, i + 1 < ask.length →
      (taq_trade_signs_trade_data ask).getD (i + 1) 0 =
        (if ask.getD (i + 1) 0 ≠ ask.getD i 0
          then np_sign (ask.getD (i + 1) 0 - ask.getD i 0)
          else (taq_trade_signs_trade_data ask).getD i 0) := by
  refine ⟨by rfl, ?_, ?_⟩
  · cases ask with
    | nil => exact absurd rfl h
    | cons a rest =>
      rw [List.getLastD_cons]
      simp [taq_trade_signs_trade_data, tickScan, sub_ne_zero]
  · intro i hi
    cases ask with
    | nil => exact absurd rfl h
    | cons a rest =>
      exact tickScan_getD_succ (a :: rest) (rest.getLastD a) 1 i hi

/-- C1 (witness): the amended characterization instantiated at the concrete
series `[10, 10, 9, 11]`. -/
theorem taq_tick_rule_boundary_witness :
    ([10, 10, 9, 11] : List Int) ≠ [] ∧
    (taq_trade_signs_trade_data [10, 10, 9, 11]).getD 0 0 =
      (if ([10, 10, 9, 11] : List Int).getD 0 0 ≠
          ([10, 10, 9, 11] : List Int).getLastD 0
        then np_sign (([10, 10, 9, 11] : List Int).getD 0 0 -
          ([10, 10, 9, 11] : List Int).getLastD 0) else 1) :=
  ⟨by decide, (taq_tick_rule_boundary [10, 10, 9, 11] (by decide)).2.1⟩

/-! ## Theorems: self-response aggregation (claims C2, C9) -/

theorem self_response_day_lag_zero_signs (m s : List ℚ)
    (hz : ∀ x ∈ s, x = 0) (tau_idx : Nat) :
    self_response_day_lag m s tau_idx = (0, 0) := by
  have hfil : (s.take (s.length - (tau_idx + 1))).filter
      (fun x => decide (x ≠ 0)) = [] := by
    rw [List.filter_eq_nil_iff]
    intro a ha
    simp [hz a (List.mem_of_mem_take ha)]
  simp only [self_response_day_lag]
  rw [hfil]
  norm_num

theorem self_response_day_core_zero_signs (m s : List ℚ)
    (hz : ∀ x ∈ s, x = 0) :
    self_response_day_core m s =
      (List.replicate __tau__ 0, List.replicate __tau__ 0) := by
  unfold self_response_day_core
  have hpairs : (List.range __tau__).map (self_response_day_lag m s) =
      List.replicate __tau__ ((0 : ℚ), (0 : ℚ)) := by
    apply List.eq_replicate_iff.mpr
    refine ⟨by simp, ?_⟩
    intro p hp
    rcases List.mem_map.mp hp with ⟨tau_idx, _, hmap⟩
    rw [self_response_day_lag_zero_signs m s hz tau_idx] at hmap
    exact hmap.symm
  rw [hpairs, List.map_replicate, List.map_replicate]

/-- C9 (counterexample): a day whose source data is absent is
indistinguishable from a legitimate day whose trade signs are all zero —
both day functions return exactly the same `.ok` value
`(np.zeros(1000), np.zeros(1000))` in the two situations, so no explicit
failure signal exists. -/
theorem day_missing_input_indistinguishable :
    taq_self_response_day_responses_second_data none =
      taq_self_response_day_responses_second_data (some ([1], [0])) ∧
    itch_self_response_day_responses_second_data none =
      itch_self_response_day_responses_second_data (some ([1], [0])) := by
  have hcore := self_response_day_core_zero_signs [1] [0] (by decide)
  constructor <;>
    simp [taq_self_response_day_responses_second_data,
      itch_self_response_day_responses_second_data, hcore]

/-- C9 (amended): when a day's source data is absent (FileNotFoundError),
both per-day self-response functions print a message and return fabricated
all-zero `R` and `N` vectors wrapped in the success constructor — the same
value a legitimate pass over an all-zero-sign day produces — rather than an
explicit failure signal. -/
theorem day_missing_input_returns_zeros :
    taq_self_response_day_responses_second_data none =
      .ok (List.replicate __tau__ 0, List.replicate __tau__ 0) ∧
    itch_self_response_day_responses_second_data none =
      .ok (List.replicate __tau__ 0, List.replicate __tau__ 0) ∧
    ∃ m s : List ℚ, m.length = s.length ∧
      taq_self_response_day_responses_second_data (some (m, s)) =
        taq_self_response_day_responses_second_data none := by
  refine ⟨rfl, rfl, [1], [0], by decide, ?_⟩
  have hcore := self_response_day_core_zero_signs [1] [0] (by decide)
  simp [taq_self_response_day_responses_second_data, hcore]

/-- C2 (counterexample): the week reduction has no division-by-zero guard.
On the claim's own example — two days with `(R, N)` equal to
`([2,0],[2,0])` and `([4,0],[2,0])` — the aggregate response is
`[1.5, nan]` (the `0/0` slot is a non-finite float, modelled `none`),
not the claimed `[1.5, 0]`. -/
theorem week_zero_count_counterexample :
    taq_self_response_week_responses_second_data
        [([2, 0], [2, 0]), ([4, 0], [2, 0])] =
      ([some (3 / 2), none], [4, 0]) ∧
    (taq_self_response_week_responses_second_data
        [([2, 0], [2, 0]), ([4, 0], [2, 0])]).1.getD 1 (some 0) ≠ some 0 := by
  have h : taq_self_response_week_responses_second_data
      [([2, 0], [2, 0]), ([4, 0], [2, 0])] = ([some (3 / 2), none], [4, 0]) := by
    norm_num [taq_self_response_week_responses_second_data, vecSum, np_div]
  refine ⟨h, ?_⟩
  rw [h]
  simp

/-- C2 (amended): in the multi-day reduction, every lag whose summed sample
count is zero produces the unguarded `0/0` (IEEE `nan`, modelled `none`) —
not `0`, and not an exception — in both the TAQ and the ITCH variant. -/
theorem week_zero_count_gives_nan (days : List (List ℚ × List ℚ)) (i : Nat)
    (hi : i < (taq_self_response_week_responses_second_data days).1.length)
    (hz : (taq_self_response_week_responses_second_data days).2.getD i 1 = 0) :
    (taq_self_response_week_responses_second_data days).1.getD i (some 0) =
      none ∧
    (itch_self_response_week_responses_second_data days).1.getD i (some 0) =
      none := by
  have heq : itch_self_response_week_responses_second_data days =
      taq_self_response_week_responses_second_data days := rfl
  rw [heq, and_self]
  unfold taq_self_response_week_responses_second_data at hi hz ⊢
  simp only [List.length_zipWith, lt_min_iff] at hi
  rcases hi with ⟨hiR, hiN⟩
  have hzi : (vecSum (days.map Prod.snd))[i] = 0 := by
    rw [List.getD_eq_getElem?_getD, List.getElem?_eq_getElem hiN] at hz
    simpa using hz
  have hlen : i < (List.zipWith np_div (vecSum (days.map Prod.fst))
      (vecSum (days.map Prod.snd))).length := by
    simp [List.length_zipWith]
    omega
  rw [List.getD_eq_getElem?_getD, List.getElem?_eq_getElem hlen]
  simp [List.getElem_zipWith, hzi, np_div]

/-- C2 (witness): the amended statement at the claim's example, lag index 1
(summed sample count `2 + 0 + ... = 0` at that lag... here `N = [4, 0]`, so
lag 1 has count 0): the response there is `none`, the model of `nan`. -/
theorem week_zero_count_gives_nan_witness :
    (1 < (taq_self_response_week_responses_second_data
        [([2, 0], [2, 0]), ([4, 0], [2, 0])]).1.length ∧
      (taq_self_response_week_responses_second_data
        [([2, 0], [2, 0]), ([4, 0], [2, 0])]).2.getD 1 1 = 0) ∧
    ((taq_self_response_week_responses_second_data
        [([2, 0], [2, 0]), ([4, 0], [2, 0])]).1.getD 1 (some 0) = none ∧
      (itch_self_response_week_responses_second_data
        [([2, 0], [2, 0]), ([4, 0], [2, 0])]).1.getD 1 (some 0) = none) := by
  have h : taq_self_response_week_responses_second_data
      [([2, 0], [2, 0]), ([4, 0], [2, 0])] = ([some (3 / 2), none], [4, 0]) := by
    norm_num [taq_self_response_week_responses_second_data, vecSum, np_div]
  have h1 : 1 < (taq_self_response_week_responses_second_data
      [([2, 0], [2, 0]), ([4, 0], [2, 0])]).1.length := by
    rw [h]; simp
  have h2 : (taq_self_response_week_responses_second_data
      [([2, 0], [2, 0]), ([4, 0], [2, 0])]).2.getD 1 1 = 0 := by
    rw [h]; simp
  exact ⟨⟨h1, h2⟩,
    week_zero_count_gives_nan [([2, 0], [2, 0]), ([4, 0], [2, 0])] 1 h1 h2⟩

/-! ## Theorems: market-time filtering (claim C5) -/

/-- C5 (counterexample): the engines filter to 09:30–16:00, not to the
09:40:00–15:49:59 grid window.  A hidden trade at 34,500,000 ms (09:35:00)
is emitted by `itch_trade_signs_millisecond_data` — `34500000/3600/1000 =
9.58… ≥ 9.5` passes the filter — although it lies outside the grid window
`[34800000, 57000000)` claimed by the spec. -/
theorem emitted_record_outside_grid_window :
    itch_trade_signs_millisecond_data [⟨34500000, 0, 'T', 7, 999⟩] =
      .ok [⟨34500000, 0, 7, 999⟩] ∧
    (34500000 : Int) < 34800000 :=
  ⟨rfl, by decide⟩

/-- C5 (amended): every record emitted by the two millisecond engines has
its raw millisecond timestamp inside the *open-market filter window*
09:30–16:00 — `34200000 < t < 57600000` for the midpoint engine (strict
`> 9.5` hours) and `34200000 ≤ t < 57600000` for the trade-sign engine
(`>= 9.5` hours) — a window strictly wider than the 09:40:00–15:49:59
per-second grid; records in [09:30, 09:40) are emitted although no grid
second covers them. -/
theorem emitted_records_in_market_filter :
    (∀ (events : List ItchEvent) (out : List BookRec),
        itch_midpoint_millisecond_data events = .ok out →
        ∀ r ∈ out, 34200000 < r.time ∧ r.time < 57600000) ∧
    (∀ (data : List RawTrade) (out : List TradeRec),
        itch_trade_signs_millisecond_data data = .ok out →
        ∀ r ∈ out, 34200000 ≤ r.time ∧ r.time < 57600000) := by
  constructor
  · intro events out hok r hr
    simp only [itch_midpoint_millisecond_data] at hok
    split at hok
    · exact absurd hok (by simp)
    · split at hok
      · exact absurd hok (by simp)
      · split at hok
        · exact absurd hok (by simp)
        · split at hok
          · exact absurd hok (by simp)
          · rcases Except.ok.inj hok with rfl
            have := List.mem_filter.mp hr
            simpa using this.2
  · intro data out hok r hr
    simp only [itch_trade_signs_millisecond_data] at hok
    split at hok
    · exact absurd hok (by simp)
    · split at hok
      · rcases Except.ok.inj hok with rfl
        have := List.mem_filter.mp hr
        simpa using this.2
      · exact absurd hok (by simp)

/-- C5 (witness): the amended bound instantiated on concrete runs of both
engines. -/
theorem emitted_records_in_market_filter_witness :
    (itch_midpoint_millisecond_data
        [⟨40000000, 7, 2, 100000⟩, ⟨40000001, 7, 5, 0⟩] =
      .ok [⟨40000000, 1000, 0⟩, ⟨40000001, 1099, 0⟩] ∧
      ∀ r ∈ [(⟨40000000, 1000, 0⟩ : BookRec), ⟨40000001, 1099, 0⟩],
        34200000 < r.time ∧ r.time < 57600000) ∧
    (itch_trade_signs_millisecond_data [⟨40000005, 0, 'T', 7, 12345⟩] =
      .ok [⟨40000005, 0, 7, 12345⟩] ∧
      ∀ r ∈ [(⟨40000005, 0, 7, 12345⟩ : TradeRec)],
        34200000 ≤ r.time ∧ r.time < 57600000) :=
  ⟨⟨rfl, emitted_records_in_market_filter.1
      [⟨40000000, 7, 2, 100000⟩, ⟨40000001, 7, 5, 0⟩]
      [⟨40000000, 1000, 0⟩, ⟨40000001, 1099, 0⟩] rfl⟩,
    ⟨rfl, emitted_records_in_market_filter.2 [⟨40000005, 0, 'T', 7, 12345⟩]
      [⟨40000005, 0, 7, 12345⟩] rfl⟩⟩

/-! ## Theorems: Strategy A hidden trades (claim C8) -/

/-- During the matching loop every entry of the mutable `limit_data_order`
array is either one of its starting values or the tombstone `0`; hence a
trade whose order id is neither never matches, and its output row stays
`(0, 0, 0)`. -/
theorem strategyA_loop_unmatched (ts : List (Int × Int × Int))
    (lOrd lVol lTyp lPrice : List Int) (S : List Int)
    (hsub : ∀ o ∈ lOrd, o ∈ S ∨ o = 0) (outs : List (Int × Int × Int))
    (hok : strategyA_loop lOrd lVol lTyp lPrice ts = .ok outs)
    (i : Nat) (ord tc sh : Int) (hts : ts[i]? = some (ord, tc, sh))
    (hni : ord ∉ S) (hnz : ord ≠ 0) : outs[i]? = some (0, 0, 0) := by
  induction ts generalizing lOrd lVol outs i with
  | nil => simp at hts
  | cons head rest ih =>
    obtain ⟨o0, t0, s0⟩ := head
    cases i with
    | zero =>
      have hhead : o0 = ord ∧ t0 = tc ∧ s0 = sh := by
        simpa using hts
      rcases hhead with ⟨rfl, rfl, rfl⟩
      have hnone : lOrd.findIdx? (fun o => decide (o = o0)) = none := by
        rw [List.findIdx?_eq_none_iff]
        intro x hx
        rcases hsub x hx with hS | h0
        · simp only [decide_eq_false_iff_not]
          intro hxe
          exact hni (hxe ▸ hS)
        · simp only [decide_eq_false_iff_not]
          intro hxe
          exact hnz (hxe ▸ h0)
      rw [strategyA_loop, hnone] at hok
      cases hrec : strategyA_loop lOrd lVol lTyp lPrice rest with
      | error e => rw [hrec] at hok; exact absurd hok (by simp [Except.map])
      | ok outs' =>
          rw [hrec] at hok
          simp only [Except.map] at hok
          rcases Except.ok.inj hok with rfl
          simp
    | succ j =>
      have hts' : rest[j]? = some (ord, tc, sh) := by simpa using hts
      rw [strategyA_loop] at hok
      cases hfind : lOrd.findIdx? (fun o => decide (o = o0)) with
      | none =>
          rw [hfind] at hok
          cases hrec : strategyA_loop lOrd lVol lTyp lPrice rest with
          | error e => rw [hrec] at hok; exact absurd hok (by simp [Except.map])
          | ok outs' =>
              rw [hrec] at hok
              simp only [Except.map] at hok
              rcases Except.ok.inj hok with rfl
              simpa using ih lOrd lVol hsub outs' hrec j hts'
      | some l =>
          rw [hfind] at hok
          simp only at hok
          by_cases ht4 : t0 = 4
          · rw [if_pos ht4] at hok
            cases hrec : strategyA_loop (lOrd.set l 0) lVol lTyp lPrice rest with
            | error e => rw [hrec] at hok; exact absurd hok (by simp [Except.map])
            | ok outs' =>
                rw [hrec] at hok
                simp only [Except.map] at hok
                rcases Except.ok.inj hok with rfl
                have hsub' : ∀ o ∈ lOrd.set l 0, o ∈ S ∨ o = 0 := by
                  intro o ho
                  rcases List.mem_or_eq_of_mem_set ho with hmem | rfl
                  · exact hsub o hmem
                  · exact Or.inr rfl
                simpa using ih (lOrd.set l 0) lVol hsub' outs' hrec j hts'
          · rw [if_neg ht4] at hok
            by_cases hdiff : (lVol.getD l 0 - s0).emod 65536 = 0
            · rw [if_pos hdiff] at hok
              exact absurd hok (by simp)
            · rw [if_neg hdiff] at hok
              cases hrec : strategyA_loop lOrd
                  (lVol.set l ((lVol.getD l 0 - s0).emod 65536)) lTyp lPrice
                  rest with
              | error e => rw [hrec] at hok; exact absurd hok (by simp [Except.map])
              | ok outs' =>
                  rw [hrec] at hok
                  simp only [Except.map] at hok
                  rcases Except.ok.inj hok with rfl
                  simpa using ih lOrd _ hsub outs' hrec j hts'

/-- C8 (counterexample): a lone `ExecuteHidden` trade (order id 0, no
resting-order counterpart) gets its volume (7) and price (12345, in 1e-4
units) from its own fields, but its sign is left `0` — there is no tick-rule
fallback for hidden trades anywhere in
`itch_trade_signs_millisecond_data`. -/
theorem hidden_trade_sign_left_zero :
    itch_trade_signs_millisecond_data [⟨40000000, 0, 'T', 7, 12345⟩] =
      .ok [⟨40000000, 0, 7, 12345⟩] ∧
    (TradeRec.mk 40000000 0 7 12345).sign = 0 :=
  ⟨rfl, rfl⟩

theorem assembleTradeRec_time (r : RawTrade) (o : Int × Int × Int) :
    (assembleTradeRec r o).time = r.time := by
  unfold assembleTradeRec
  split <;> rfl

theorem assembleTradeRec_hidden (r : RawTrade) (o : Int × Int × Int)
    (h : r.typ = 'T') :
    assembleTradeRec r o = ⟨r.time, o.1, r.shares, r.price⟩ := by
  simp [assembleTradeRec, h, tradeTypeCode]

/-- C8 (amended): in Strategy A, an `ExecuteHidden` trade whose order id has
no resting-order counterpart (its id appears on no `B`/`S` row and is not
the tombstone value `0`) gets its *price and volume* from the trade record's
own fields, but its sign is left `0` — no tick rule is applied to hidden
trades.  Stated for inputs whose timestamps lie in the open-market window,
so that output rows align one-to-one with the trade rows. -/
theorem hidden_trades_own_fields (data : List RawTrade)
    (houts : List TradeRec)
    (hok : itch_trade_signs_millisecond_data data = .ok houts)
    (hwin : ∀ r ∈ data, 34200000 ≤ r.time ∧ r.time < 57600000)
    (hhid : ∀ r ∈ data, r.typ = 'T' →
      r.order ∉ (data.filter (fun x =>
          decide (x.typ = 'B') || decide (x.typ = 'S'))).map RawTrade.order ∧
      r.order ≠ 0)
    (i : Nat) (r : RawTrade)
    (hi : (data.filter (fun x => decide (x.typ = 'E') || decide (x.typ = 'F')
        || decide (x.typ = 'T')))[i]? = some r)
    (hT : r.typ = 'T') :
    houts[i]? = some ⟨r.time, 0, r.shares, r.price⟩ := by
  have hrdata : r ∈ data :=
    List.mem_of_mem_filter (List.mem_iff_getElem?.mpr ⟨i, hi⟩)
  simp only [itch_trade_signs_millisecond_data] at hok
  split at hok
  · exact absurd hok (by simp)
  next outs hloop =>
    split at hok
    case isFalse => exact absurd hok (by simp)
    case isTrue hguard =>
      rcases Except.ok.inj hok with rfl
      -- the market-time filter keeps every assembled row
      have hfid : ∀ (trades : List RawTrade), (∀ a ∈ trades, a ∈ data) →
          (List.zipWith assembleTradeRec trades outs).filter (fun rec =>
            decide (34200000 ≤ rec.time) && decide (rec.time < 57600000)) =
          List.zipWith assembleTradeRec trades outs := by
        intro trades hsubd
        rw [List.filter_eq_self]
        intro a ha
        rcases List.mem_iff_getElem?.mp ha with ⟨k, hk⟩
        rw [List.getElem?_zipWith] at hk
        cases htk : trades[k]? with
        | none => rw [htk] at hk; simp at hk
        | some a0 =>
            cases hok2 : outs[k]? with
            | none => rw [htk, hok2] at hk; simp at hk
            | some b0 =>
                rw [htk, hok2] at hk
                simp only [Option.some.injEq] at hk
                have ha0 : a0 ∈ data :=
                  hsubd a0 (List.mem_iff_getElem?.mpr ⟨k, htk⟩)
                have htime := assembleTradeRec_time a0 b0
                rcases hwin a0 ha0 with ⟨h1, h2⟩
                rw [← hk, htime]
                simp [h1, h2]
      rw [hfid _ (fun a ha => List.mem_of_mem_filter ha)]
      -- the matching loop leaves the hidden trade's row at (0, 0, 0)
      have hts : (List.map (fun r => (r.order, tradeTypeCode r.typ, r.shares))
          (data.filter (fun x => decide (x.typ = 'E') || decide (x.typ = 'F')
            || decide (x.typ = 'T'))))[i]? =
          some (r.order, tradeTypeCode r.typ, r.shares) := by
        rw [List.getElem?_map, hi]
        rfl
      have hni : r.order ∉ (((data.filter (fun x =>
          decide (x.typ = 'B') || decide (x.typ = 'S'))).filter
            (fun x => decide (x.order ∈ (data.filter (fun y =>
              decide (y.typ = 'E') || decide (y.typ = 'F') ||
                decide (y.typ = 'T'))).map RawTrade.order))).map
          RawTrade.order) := by
        intro hmem
        rcases List.mem_map.mp hmem with ⟨x, hx, hxo⟩
        exact (hhid r hrdata hT).1 (List.mem_map.mpr
          ⟨x, List.mem_of_mem_filter hx, hxo⟩)
      have houti := strategyA_loop_unmatched _ _ _ _ _ _
        (fun o ho => Or.inl ho) outs hloop i r.order (tradeTypeCode r.typ)
        r.shares hts hni (hhid r hrdata hT).2
      rw [List.getElem?_zipWith, hi, houti]
      simp only [assembleTradeRec_hidden r (0, 0, 0) hT]

/-- C8 (witness): the amended statement on a one-row input consisting of a
single hidden trade. -/
theorem hidden_trades_own_fields_witness :
    (itch_trade_signs_millisecond_data [⟨40000001, 3, 'T', 9, 54321⟩] =
      .ok [⟨40000001, 0, 9, 54321⟩] ∧
      (∀ r ∈ [(⟨40000001, 3, 'T', 9, 54321⟩ : RawTrade)],
        34200000 ≤ r.time ∧ r.time < 57600000) ∧
      ((⟨40000001, 3, 'T', 9, 54321⟩ : RawTrade).typ = 'T')) ∧
    ([(⟨40000001, 0, 9, 54321⟩ : TradeRec)])[0]? =
      some ⟨40000001, 0, 9, 54321⟩ :=
  ⟨⟨rfl, by decide, rfl⟩,
    hidden_trades_own_fields [⟨40000001, 3, 'T', 9, 54321⟩]
      [⟨40000001, 0, 9, 54321⟩] rfl (by decide) (by decide) 0
      ⟨40000001, 3, 'T', 9, 54321⟩ (by rfl) rfl⟩

/-! ## Theorems: the post-classification assertion (claim C10) -/

theorem strategyA_loop_length (ts : List (Int × Int × Int))
    (lOrd lVol lTyp lPrice : List Int) (outs : List (Int × Int × Int))
    (hok : strategyA_loop lOrd lVol lTyp lPrice ts = .ok outs) :
    outs.length = ts.length := by
  induction ts generalizing lOrd lVol outs with
  | nil =>
      rw [strategyA_loop] at hok
      rcases Except.ok.inj hok with rfl
      rfl
  | cons head rest ih =>
    obtain ⟨o0, t0, s0⟩ := head
    rw [strategyA_loop] at hok
    cases hfind : lOrd.findIdx? (fun o => decide (o = o0)) with
    | none =>
        rw [hfind] at hok
        cases hrec : strategyA_loop lOrd lVol lTyp lPrice rest with
        | error e => rw [hrec] at hok; exact absurd hok (by simp [Except.map])
        | ok outs' =>
            rw [hrec] at hok
            simp only [Except.map] at hok
            rcases Except.ok.inj hok with rfl
            simp [ih lOrd lVol outs' hrec]
    | some l =>
        rw [hfind] at hok
        simp only at hok
        by_cases ht4 : t0 = 4
        · rw [if_pos ht4] at hok
          cases hrec : strategyA_loop (lOrd.set l 0) lVol lTyp lPrice rest with
          | error e => rw [hrec] at hok; exact absurd hok (by simp [Except.map])
          | ok outs' =>
              rw [hrec] at hok
              simp only [Except.map] at hok
              rcases Except.ok.inj hok with rfl
              simp [ih (lOrd.set l 0) lVol outs' hrec]
        · rw [if_neg ht4] at hok
          by_cases hdiff : (lVol.getD l 0 - s0).emod 65536 = 0
          · rw [if_pos hdiff] at hok
            exact absurd hok (by simp)
          · rw [if_neg hdiff] at hok
            cases hrec : strategyA_loop lOrd
                (lVol.set l ((lVol.getD l 0 - s0).emod 65536)) lTyp lPrice
                rest with
            | error e => rw [hrec] at hok; exact absurd hok (by simp [Except.map])
            | ok outs' =>
                rw [hrec] at hok
                simp only [Except.map] at hok
                rcases Except.ok.inj hok with rfl
                simp [ih lOrd _ outs' hrec]

theorem strategyA_loop_error_msg (ts : List (Int × Int × Int))
    (lOrd lVol lTyp lPrice : List Int) (e : String)
    (herr : strategyA_loop lOrd lVol lTyp lPrice ts = .error e) :
    e = "AssertionError: diff_volumes > 0" := by
  induction ts generalizing lOrd lVol e with
  | nil =>
      rw [strategyA_loop] at herr
      exact absurd herr (by simp)
  | cons head rest ih =>
    obtain ⟨o0, t0, s0⟩ := head
    rw [strategyA_loop] at herr
    cases hfind : lOrd.findIdx? (fun o => decide (o = o0)) with
    | none =>
        rw [hfind] at herr
        cases hrec : strategyA_loop lOrd lVol lTyp lPrice rest with
        | error e0 =>
            rw [hrec] at herr
            simp only [Except.map] at herr
            rcases Except.error.inj herr with rfl
            exact ih lOrd lVol e0 hrec
        | ok outs' => rw [hrec] at herr; exact absurd herr (by simp [Except.map])
    | some l =>
        rw [hfind] at herr
        simp only at herr
        by_cases ht4 : t0 = 4
        · rw [if_pos ht4] at herr
          cases hrec : strategyA_loop (lOrd.set l 0) lVol lTyp lPrice rest with
          | error e0 =>
              rw [hrec] at herr
              simp only [Except.map] at herr
              rcases Except.error.inj herr with rfl
              exact ih (lOrd.set l 0) lVol e0 hrec
          | ok outs' => rw [hrec] at herr; exact absurd herr (by simp [Except.map])
        · rw [if_neg ht4] at herr
          by_cases hdiff : (lVol.getD l 0 - s0).emod 65536 = 0
          · rw [if_pos hdiff] at herr
            exact (Except.error.inj herr).symm
          · rw [if_neg hdiff] at herr
            cases hrec : strategyA_loop lOrd
                (lVol.set l ((lVol.getD l 0 - s0).emod 65536)) lTyp lPrice
                rest with
            | error e0 =>
                rw [hrec] at herr
                simp only [Except.map] at herr
                rcases Except.error.inj herr with rfl
                exact ih lOrd _ e0 hrec
            | ok outs' => rw [hrec] at herr; exact absurd herr (by simp [Except.map])

/-- C10: the check `assert len(trade_signs != 0) == len(trade_data_types != 5)`
compares the *lengths* of two boolean masks, which equal the lengths of the
underlying arrays — both the number of trade records — so the assertion holds
for every input and can never detect a visible trade left with sign `0`:
(a) for any two equal-length arrays and any values the two `len(arr != v)`
agree; (b) `itch_trade_signs_millisecond_data` can only fail with the
volume assertion of the matching loop, never with this one. -/
theorem trade_signs_mask_length_assert :
    (∀ (xs ys : List Int) (v w : Int), xs.length = ys.length →
        np_len_ne xs v = np_len_ne ys w) ∧
    (∀ (data : List RawTrade) (e : String),
        itch_trade_signs_millisecond_data data = .error e →
        e = "AssertionError: diff_volumes > 0") := by
  constructor
  · intro xs ys v w h
    simp [np_len_ne, h]
  · intro data e herr
    simp only [itch_trade_signs_millisecond_data] at herr
    split at herr
    next e0 hloop =>
      rcases Except.error.inj herr with rfl
      exact strategyA_loop_error_msg _ _ _ _ _ _ hloop
    next outs hloop =>
      split at herr
      · exact absurd herr (by simp)
      next hguard =>
        exfalso
        apply hguard
        have hlen := strategyA_loop_length _ _ _ _ _ _ hloop
        simp only [np_len_ne, List.length_map] at hlen ⊢
        exact hlen

/-- C10 (witness): part (a) at two concrete equal-length arrays, and
part (b) at a concrete input that does fail (an `E` trade consuming the full
remaining volume of its resting order, so `diff_volumes` is `0`). -/
theorem trade_signs_mask_length_assert_witness :
    (([1, 2] : List Int).length = ([3, 4] : List Int).length ∧
      np_len_ne [1, 2] 0 = np_len_ne [3, 4] 5) ∧
    (itch_trade_signs_millisecond_data
        [⟨40000000, 5, 'S', 7, 100⟩, ⟨40000001, 5, 'E', 7, 100⟩] =
      .error "AssertionError: diff_volumes > 0" ∧
      "AssertionError: diff_volumes > 0" = "AssertionError: diff_volumes > 0") :=
  ⟨⟨by decide, trade_signs_mask_length_assert.1 [1, 2] [3, 4] 0 5 (by decide)⟩,
    ⟨rfl, trade_signs_mask_length_assert.2
      [⟨40000000, 5, 'S', 7, 100⟩, ⟨40000001, 5, 'E', 7, 100⟩]
      "AssertionError: diff_volumes > 0" rfl⟩⟩

/-! ## Theorems: order-book engine auxiliary lemmas (claims C3, C4) -/

theorem min?_map_filter_range_eq (n : Nat) (f : Nat → Int) (p : Nat → Bool)
    (t : Nat) (ht : t < n) (hpt : p t = true)
    (hall : ∀ k, k < n → p k = true → k = t) :
    ((((List.range n).filter p).map f).min?) = some (f t) := by
  have hmem : t ∈ (List.range n).filter p :=
    List.mem_filter.mpr ⟨List.mem_range.mpr ht, hpt⟩
  have hrep : (List.range n).filter p =
      List.replicate ((List.range n).filter p).length t := by
    apply List.eq_replicate_iff.mpr
    refine ⟨rfl, ?_⟩
    intro b hb
    rcases List.mem_filter.mp hb with ⟨hbr, hbp⟩
    exact hall b (List.mem_range.mp hbr) hbp
  have hpos : 0 < ((List.range n).filter p).length :=
    List.length_pos.mpr (List.ne_nil_of_mem hmem)
  rw [hrep, List.map_replicate]
  exact List.min?_replicate_of_pos (min_self (f t)) (by simpa using hpos)

theorem max?_map_filter_range_eq (n : Nat) (f : Nat → Int) (p : Nat → Bool)
    (t : Nat) (ht : t < n) (hpt : p t = true)
    (hall : ∀ k, k < n → p k = true → k = t) :
    ((((List.range n).filter p).map f).max?) = some (f t) := by
  have hmem : t ∈ (List.range n).filter p :=
    List.mem_filter.mpr ⟨List.mem_range.mpr ht, hpt⟩
  have hrep : (List.range n).filter p =
      List.replicate ((List.range n).filter p).length t := by
    apply List.eq_replicate_iff.mpr
    refine ⟨rfl, ?_⟩
    intro b hb
    rcases List.mem_filter.mp hb with ⟨hbr, hbp⟩
    exact hall b (List.mem_range.mp hbr) hbp
  have hpos : 0 < ((List.range n).filter p).length :=
    List.length_pos.mpr (List.ne_nil_of_mem hmem)
  rw [hrep, List.map_replicate]
  exact List.max?_replicate_of_pos (max_self (f t)) (by simpa using hpos)

theorem min?_map_filter_range_mem (n : Nat) (f : Nat → Int) (p : Nat → Bool)
    (v : Int) (h : ((((List.range n).filter p).map f).min?) = some v) :
    ∃ k, k < n ∧ p k = true ∧ v = f k := by
  have hv := List.min?_mem (fun a b => min_choice a b) h
  rcases List.mem_map.mp hv with ⟨k, hk, hfk⟩
  rcases List.mem_filter.mp hk with ⟨hkr, hkp⟩
  exact ⟨k, List.mem_range.mp hkr, hkp, hfk.symm⟩

theorem max?_map_filter_range_mem (n : Nat) (f : Nat → Int) (p : Nat → Bool)
    (v : Int) (h : ((((List.range n).filter p).map f).max?) = some v) :
    ∃ k, k < n ∧ p k = true ∧ v = f k := by
  have hv := List.max?_mem (fun a b => max_choice a b) h
  rcases List.mem_map.mp hv with ⟨k, hk, hfk⟩
  rcases List.mem_filter.mp hk with ⟨hkr, hkp⟩
  exact ⟨k, List.mem_range.mp hkr, hkp, hfk.symm⟩

theorem bookInv_emit (okAsk okBid : Nat → Prop) (nLevels : Nat) (minP : Int)
    (st₁ st : BookState) (t : Int)
    (h : BookInv okAsk okBid nLevels minP st₁) :
    BookInv okAsk okBid nLevels minP
      (if st₁.bestAsk ≠ st.bestAsk ∨ st₁.bestBid ≠ st.bestBid then
        { st₁ with records := st₁.records ++ [⟨t, st₁.bestAsk, st₁.bestBid⟩] }
      else st₁) := by
  split
  · obtain ⟨i1, i2, i3, i4, i5, i6⟩ := h
    refine ⟨i1, i2, i3, i4, ?_, i6⟩
    intro r hr
    rcases List.mem_append.mp hr with hr | hr
    · exact i5 r hr
    · have : r = ⟨t, st₁.bestAsk, st₁.bestBid⟩ := by simpa using hr
      rw [this]
      exact i6
  · exact h

theorem bid_le_askVal (okAsk okBid : Nat → Prop) (nLevels : Nat) (minP : Int)
    (hsep : ∀ j j', j < nLevels → j' < nLevels → okBid j → okAsk j' → j ≤ j')
    (hminP : 0 ≤ minP) (st : BookState)
    (i4 : st.bestBid = 0 ∨
      ∃ j, j < nLevels ∧ okBid j ∧ st.bestBid = valP minP j)
    (k : Nat) (hk : k < nLevels) (hok : okAsk k) :
    st.bestBid ≤ valP minP k := by
  rcases i4 with h0 | ⟨j, hj, hbj, hbv⟩
  · rw [h0]
    unfold valP
    omega
  · rw [hbv]
    unfold valP
    have := hsep j k hj hk hbj hok
    omega

theorem bidVal_le_ask (okAsk okBid : Nat → Prop) (nLevels : Nat) (minP : Int)
    (hsep : ∀ j j', j < nLevels → j' < nLevels → okBid j → okAsk j' → j ≤ j')
    (hmaxVal : minP + (nLevels : Int) ≤ 1000000000) (st : BookState)
    (i3 : st.bestAsk = 1000000000 ∨
      ∃ j, j < nLevels ∧ okAsk j ∧ st.bestAsk = valP minP j)
    (k : Nat) (hk : k < nLevels) (hok : okBid k) :
    valP minP k ≤ st.bestAsk := by
  rcases i3 with h0 | ⟨j, hj, haj, hav⟩
  · rw [h0]
    unfold valP
    omega
  · rw [hav]
    unfold valP
    have := hsep k j hk hj hok haj
    omega

theorem bookInv_addSell (okAsk okBid : Nat → Prop) (nLevels : Nat) (minP : Int)
    (hsep : ∀ j j', j < nLevels → j' < nLevels → okBid j → okAsk j' → j ≤ j')
    (hminP : 0 ≤ minP) (st : BookState) (j : Nat) (hj : j < nLevels)
    (hok : okAsk j) (hInv : BookInv okAsk okBid nLevels minP st) :
    BookInv okAsk okBid nLevels minP
      { st with
        bestAsk := if st.nAsk j = 0 then min st.bestAsk (valP minP j)
                   else st.bestAsk
        nAsk := Function.update st.nAsk j (st.nAsk j + 1) } := by
  obtain ⟨i1, i2, i3, i4, i5, i6⟩ := hInv
  unfold BookInv
  dsimp only
  refine ⟨?_, i2, ?_, i4, i5, ?_⟩
  · intro k hk hpos
    by_cases hkj : k = j
    · exact hkj ▸ hok
    · rw [Function.update_noteq hkj] at hpos
      exact i1 k hk hpos
  · by_cases hz : st.nAsk j = 0
    · rw [if_pos hz]
      rcases min_choice st.bestAsk (valP minP j) with hmin | hmin
      · rw [hmin]
        exact i3
      · rw [hmin]
        exact Or.inr ⟨j, hj, hok, rfl⟩
    · rw [if_neg hz]
      exact i3
  · by_cases hz : st.nAsk j = 0
    · rw [if_pos hz]
      exact le_min i6
        (bid_le_askVal okAsk okBid nLevels minP hsep hminP st i4 j hj hok)
    · rw [if_neg hz]
      exact i6

theorem bookInv_addBuy (okAsk okBid : Nat → Prop) (nLevels : Nat) (minP : Int)
    (hsep : ∀ j j', j < nLevels → j' < nLevels → okBid j → okAsk j' → j ≤ j')
    (hmaxVal : minP + (nLevels : Int) ≤ 1000000000)
    (st : BookState) (j : Nat) (hj : j < nLevels)
    (hok : okBid j) (hInv : BookInv okAsk okBid nLevels minP st) :
    BookInv okAsk okBid nLevels minP
      { st with
        bestBid := if st.nBid j = 0 then max st.bestBid (valP minP j)
                   else st.bestBid
        nBid := Function.update st.nBid j (st.nBid j + 1) } := by
  obtain ⟨i1, i2, i3, i4, i5, i6⟩ := hInv
  unfold BookInv
  dsimp only
  refine ⟨i1, ?_, i3, ?_, i5, ?_⟩
  · intro k hk hpos
    by_cases hkj : k = j
    · exact hkj ▸ hok
    · rw [Function.update_noteq hkj] at hpos
      exact i2 k hk hpos
  · by_cases hz : st.nBid j = 0
    · rw [if_pos hz]
      rcases max_choice st.bestBid (valP minP j) with hmax | hmax
      · rw [hmax]
        exact i4
      · rw [hmax]
        exact Or.inr ⟨j, hj, hok, rfl⟩
    · rw [if_neg hz]
      exact i4
  · by_cases hz : st.nBid j = 0
    · rw [if_pos hz]
      exact max_le i6
        (bidVal_le_ask okAsk okBid nLevels minP hsep hmaxVal st i3 j hj hok)
    · rw [if_neg hz]
      exact i6

theorem bookInv_decAsk (okAsk okBid : Nat → Prop) (nLevels : Nat) (minP : Int)
    (st : BookState) (j : Nat)
    (hInv : BookInv okAsk okBid nLevels minP st) :
    BookInv okAsk okBid nLevels minP
      { st with nAsk := Function.update st.nAsk j (st.nAsk j - 1) } := by
  obtain ⟨i1, i2, i3, i4, i5, i6⟩ := hInv
  unfold BookInv
  dsimp only
  refine ⟨?_, i2, i3, i4, i5, i6⟩
  intro k hk hpos
  by_cases hkj : k = j
  · subst hkj
    rw [Function.update_same] at hpos
    exact i1 k hk (by omega)
  · rw [Function.update_noteq hkj] at hpos
    exact i1 k hk hpos

theorem bookInv_decBid (okAsk okBid : Nat → Prop) (nLevels : Nat) (minP : Int)
    (st : BookState) (j : Nat)
    (hInv : BookInv okAsk okBid nLevels minP st) :
    BookInv okAsk okBid nLevels minP
      { st with nBid := Function.update st.nBid j (st.nBid j - 1) } := by
  obtain ⟨i1, i2, i3, i4, i5, i6⟩ := hInv
  unfold BookInv
  dsimp only
  refine ⟨i1, ?_, i3, i4, i5, i6⟩
  intro k hk hpos
  by_cases hkj : k = j
  · subst hkj
    rw [Function.update_same] at hpos
    exact i2 k hk (by omega)
  · rw [Function.update_noteq hkj] at hpos
    exact i2 k hk hpos

theorem bookInv_recomputeAsk (okAsk okBid : Nat → Prop) (nLevels : Nat)
    (minP : Int)
    (hsep : ∀ j j', j < nLevels → j' < nLevels → okBid j → okAsk j' → j ≤ j')
    (hminP : 0 ≤ minP) (st : BookState) (nA : Nat → Int) (v : Int) (k : Nat)
    (hn : ∀ kk, kk < nLevels → 0 < nA kk → okAsk kk)
    (hk : k < nLevels) (hokk : okAsk k) (hv : v = valP minP k)
    (hInv : BookInv okAsk okBid nLevels minP st) :
    BookInv okAsk okBid nLevels minP { st with nAsk := nA, bestAsk := v } := by
  obtain ⟨i1, i2, i3, i4, i5, i6⟩ := hInv
  unfold BookInv
  dsimp only
  refine ⟨hn, i2, Or.inr ⟨k, hk, hokk, hv⟩, i4, i5, ?_⟩
  rw [hv]
  exact bid_le_askVal okAsk okBid nLevels minP hsep hminP st i4 k hk hokk

theorem bookInv_recomputeBid (okAsk okBid : Nat → Prop) (nLevels : Nat)
    (minP : Int)
    (hsep : ∀ j j', j < nLevels → j' < nLevels → okBid j → okAsk j' → j ≤ j')
    (hmaxVal : minP + (nLevels : Int) ≤ 1000000000)
    (st : BookState) (nB : Nat → Int) (v : Int) (k : Nat)
    (hn : ∀ kk, kk < nLevels → 0 < nB kk → okBid kk)
    (hk : k < nLevels) (hokk : okBid k) (hv : v = valP minP k)
    (hInv : BookInv okAsk okBid nLevels minP st) :
    BookInv okAsk okBid nLevels minP { st with nBid := nB, bestBid := v } := by
  obtain ⟨i1, i2, i3, i4, i5, i6⟩ := hInv
  unfold BookInv
  dsimp only
  refine ⟨i1, hn, i3, Or.inr ⟨k, hk, hokk, hv⟩, i5, ?_⟩
  rw [hv]
  exact bidVal_le_ask okAsk okBid nLevels minP hsep hmaxVal st i3 k hk hokk

theorem bookStep_inv (okAsk okBid : Nat → Prop) (nLevels : Nat) (minP : Int)
    (hsep : ∀ j j', j < nLevels → j' < nLevels → okBid j → okAsk j' → j ≤ j')
    (hminP : 0 ≤ minP) (hmaxVal : minP + (nLevels : Int) ≤ 1000000000)
    (e : RefEvent) (st : BookState)
    (hty2 : e.typ = 2 → 0 ≤ myPriceIndex minP e.price_ref →
      myPriceIndex minP e.price_ref < (nLevels : Int) →
      okAsk (myPriceIndex minP e.price_ref).toNat)
    (hty1 : e.typ = 1 → 0 ≤ myPriceIndex minP e.price_ref →
      myPriceIndex minP e.price_ref < (nLevels : Int) →
      okBid (myPriceIndex minP e.price_ref).toNat)
    (hInv : BookInv okAsk okBid nLevels minP st)
    (st' : BookState) (hstep : bookStep minP nLevels st e = .ok st') :
    BookInv okAsk okBid nLevels minP st' := by
  simp only [bookStep] at hstep
  split at hstep
  case isTrue hrange =>
    have hjlt : (myPriceIndex minP e.price_ref).toNat < nLevels := by
      omega
    split at hstep
    case isTrue h2 =>
      simp only [Except.map] at hstep
      rcases Except.ok.inj hstep with rfl
      exact bookInv_emit okAsk okBid nLevels minP _ st e.time
        (bookInv_addSell okAsk okBid nLevels minP hsep hminP st _ hjlt
          (hty2 h2 hrange.1 hrange.2) hInv)
    case isFalse h2 =>
      split at hstep
      case isTrue h1 =>
        simp only [Except.map] at hstep
        rcases Except.ok.inj hstep with rfl
        exact bookInv_emit okAsk okBid nLevels minP _ st e.time
          (bookInv_addBuy okAsk okBid nLevels minP hsep hmaxVal st _ hjlt
            (hty1 h1 hrange.1 hrange.2) hInv)
      case isFalse h1 =>
        split at hstep
        case isTrue h56 =>
          split at hstep
          case isTrue hr2 =>
            split at hstep
            case isTrue hempty =>
              split at hstep
              case h_1 heq =>
                exact absurd hstep (by simp [Except.map])
              case h_2 v heq =>
                simp only [Except.map] at hstep
                rcases Except.ok.inj hstep with rfl
                rcases min?_map_filter_range_mem nLevels (valP minP) _ v heq
                  with ⟨k, hkn, hpk, hvk⟩
                have hposk : 0 < Function.update st.nAsk
                    (myPriceIndex minP e.price_ref).toNat
                    (st.nAsk (myPriceIndex minP e.price_ref).toNat - 1) k :=
                  of_decide_eq_true hpk
                have hdec := bookInv_decAsk okAsk okBid nLevels minP st
                  (myPriceIndex minP e.price_ref).toNat hInv
                exact bookInv_emit okAsk okBid nLevels minP _ st e.time
                  (bookInv_recomputeAsk okAsk okBid nLevels minP hsep hminP st
                    _ v k hdec.1 hkn (hdec.1 k hkn hposk) hvk hInv)
            case isFalse hempty =>
              simp only [Except.map] at hstep
              rcases Except.ok.inj hstep with rfl
              exact bookInv_emit okAsk okBid nLevels minP _ st e.time
                (bookInv_decAsk okAsk okBid nLevels minP st _ hInv)
          case isFalse hr2 =>
            split at hstep
            case isTrue hempty =>
              split at hstep
              case h_1 heq =>
                exact absurd hstep (by simp [Except.map])
              case h_2 v heq =>
                simp only [Except.map] at hstep
                rcases Except.ok.inj hstep with rfl
                rcases max?_map_filter_range_mem nLevels (valP minP) _ v heq
                  with ⟨k, hkn, hpk, hvk⟩
                have hposk : 0 < Function.update st.nBid
                    (myPriceIndex minP e.price_ref).toNat
                    (st.nBid (myPriceIndex minP e.price_ref).toNat - 1) k :=
                  of_decide_eq_true hpk
                have hdec := bookInv_decBid okAsk okBid nLevels minP st
                  (myPriceIndex minP e.price_ref).toNat hInv
                exact bookInv_emit okAsk okBid nLevels minP _ st e.time
                  (bookInv_recomputeBid okAsk okBid nLevels minP hsep hmaxVal
                    st _ v k hdec.2.1 hkn (hdec.2.1 k hkn hposk) hvk hInv)
            case isFalse hempty =>
              simp only [Except.map] at hstep
              rcases Except.ok.inj hstep with rfl
              exact bookInv_emit okAsk okBid nLevels minP _ st e.time
                (bookInv_decBid okAsk okBid nLevels minP st _ hInv)
        case isFalse h56 =>
          simp only [Except.map] at hstep
          rcases Except.ok.inj hstep with rfl
          exact bookInv_emit okAsk okBid nLevels minP st st e.time hInv
  case isFalse hrange =>
    simp only [Except.map] at hstep
    rcases Except.ok.inj hstep with rfl
    exact bookInv_emit okAsk okBid nLevels minP st st e.time hInv

theorem bookRun_inv (okAsk okBid : Nat → Prop) (nLevels : Nat) (minP : Int)
    (hsep : ∀ j j', j < nLevels → j' < nLevels → okBid j → okAsk j' → j ≤ j')
    (hminP : 0 ≤ minP) (hmaxVal : minP + (nLevels : Int) ≤ 1000000000)
    (evs : List RefEvent)
    (hse : ∀ e ∈ evs, e.typ = 2 → 0 ≤ myPriceIndex minP e.price_ref →
      myPriceIndex minP e.price_ref < (nLevels : Int) →
      okAsk (myPriceIndex minP e.price_ref).toNat)
    (hbu : ∀ e ∈ evs, e.typ = 1 → 0 ≤ myPriceIndex minP e.price_ref →
      myPriceIndex minP e.price_ref < (nLevels : Int) →
      okBid (myPriceIndex minP e.price_ref).toNat)
    (st : BookState) (hInv : BookInv okAsk okBid nLevels minP st)
    (st' : BookState) (hrun : bookRun minP nLevels st evs = .ok st') :
    BookInv okAsk okBid nLevels minP st' := by
  induction evs generalizing st with
  | nil =>
      rw [bookRun] at hrun
      rcases Except.ok.inj hrun with rfl
      exact hInv
  | cons e rest ih =>
      rw [bookRun] at hrun
      cases hstep : bookStep minP nLevels st e with
      | error err => rw [hstep] at hrun; exact absurd hrun (by simp)
      | ok st₁ =>
          rw [hstep] at hrun
          have hInv₁ := bookStep_inv okAsk okBid nLevels minP hsep hminP
            hmaxVal e st
            (hse e (List.mem_cons_self e rest))
            (hbu e (List.mem_cons_self e rest)) hInv st₁ hstep
          exact ih (fun e' he' => hse e' (List.mem_cons_of_mem e he'))
            (fun e' he' => hbu e' (List.mem_cons_of_mem e he')) st₁ hInv₁ hrun

theorem bookInv_init (okAsk okBid : Nat → Prop) (nLevels : Nat) (minP : Int)
    (hsentA : okAsk (nLevels - 1)) (hsentB : okBid 0) :
    BookInv okAsk okBid nLevels minP (initBook nLevels) := by
  unfold BookInv initBook
  dsimp only
  refine ⟨?_, ?_, Or.inl rfl, Or.inl rfl, by simp, by norm_num⟩
  · intro k hk hpos
    by_cases hke : k = nLevels - 1
    · exact hke ▸ hsentA
    · rw [if_neg hke] at hpos
      omega
  · intro k hk hpos
    by_cases hke : k = 0
    · exact hke ▸ hsentB
    · rw [if_neg hke] at hpos
      omega

/-- C4 (counterexample): an AddBuy above the current best ask is accepted
without any crossing check.  With an AddSell at 10.00 (so best ask 1000
cents, set by a resting order), an AddBuy at 10.50 produces the emitted
record `(t=40000001, bestAsk=1000, bestBid=1050)` — best bid above best ask
while both are defined — and the engine then carries the crossed book
forward. -/
theorem book_crossed_record :
    itch_midpoint_millisecond_data
        [⟨40000000, 1, 2, 100000⟩, ⟨40000001, 2, 1, 105000⟩,
          ⟨40000002, 1, 5, 0⟩] =
      .ok [⟨40000000, 1000, 0⟩, ⟨40000001, 1000, 1050⟩,
        ⟨40000002, 1099, 1050⟩] ∧
    (1000 : Int) < 1050 :=
  ⟨rfl, by decide⟩

/-- C4 (amended): the bid ≤ ask invariant holds only for non-crossing input
sequences.  For every replay in which each AddBuy is priced at a level not
above any AddSell's level (and the one-cent levels are nonnegative and lie
below the `10000000.` float sentinel), every emitted record has
best bid ≤ best ask; the original claim fails without the non-crossing
hypothesis (see the counterexample). -/
theorem book_emitted_bid_le_ask (minP : Int) (nLevels : Nat)
    (evs : List RefEvent)
    (hminP : 0 ≤ minP) (hmaxVal : minP + (nLevels : Int) ≤ 1000000000)
    (hpair : ∀ e ∈ evs, ∀ e' ∈ evs, e.typ = 1 → e'.typ = 2 →
      myPriceIndex minP e.price_ref ≤ myPriceIndex minP e'.price_ref)
    (recs : List BookRec)
    (hok : (bookRun minP nLevels (initBook nLevels) evs).map BookState.records
      = .ok recs) :
    ∀ r ∈ recs, r.bestBid ≤ r.bestAsk := by
  cases hrun : bookRun minP nLevels (initBook nLevels) evs with
  | error err => rw [hrun] at hok; exact absurd hok (by simp [Except.map])
  | ok stf =>
      rw [hrun] at hok
      simp only [Except.map] at hok
      rcases Except.ok.inj hok with rfl
      have hfin := bookRun_inv
        (fun j => j = nLevels - 1 ∨ ∃ e ∈ evs, e.typ = 2 ∧
          0 ≤ myPriceIndex minP e.price_ref ∧
          myPriceIndex minP e.price_ref < (nLevels : Int) ∧
          (myPriceIndex minP e.price_ref).toNat = j)
        (fun j => j = 0 ∨ ∃ e ∈ evs, e.typ = 1 ∧
          0 ≤ myPriceIndex minP e.price_ref ∧
          myPriceIndex minP e.price_ref < (nLevels : Int) ∧
          (myPriceIndex minP e.price_ref).toNat = j)
        nLevels minP
        (by
          intro j j' hj hj' hbj haj
          rcases hbj with rfl | ⟨e, he, h1, hge, hlt, rfl⟩
          · omega
          · rcases haj with rfl | ⟨e', he', h2, hge', hlt', rfl⟩
            · omega
            · have := hpair e he e' he' h1 h2
              omega)
        hminP hmaxVal evs
        (fun e he h2 hge hlt => Or.inr ⟨e, he, h2, hge, hlt, rfl⟩)
        (fun e he h1 hge hlt => Or.inr ⟨e, he, h1, hge, hlt, rfl⟩)
        (initBook nLevels)
        (bookInv_init _ _ nLevels minP (Or.inl rfl) (Or.inl rfl))
        stf hrun
      exact hfin.2.2.2.2.1

/-- C4 (witness): the amended invariant on a concrete one-event replay
(a single resolved AddSell at 10.00 on the grid `minP = 9.00`, 200 levels). -/
theorem book_emitted_bid_le_ask_witness :
    ((0 : Int) ≤ 900 ∧ (900 : Int) + (200 : Nat) ≤ 1000000000 ∧
      (bookRun 900 200 (initBook 200)
          [⟨40000000, 2, 0, 100000⟩]).map BookState.records =
        .ok [⟨40000000, 1000, 0⟩]) ∧
    ∀ r ∈ [(⟨40000000, 1000, 0⟩ : BookRec)], r.bestBid ≤ r.bestAsk :=
  ⟨⟨by decide, by decide, rfl⟩,
    book_emitted_bid_le_ask 900 200 [⟨40000000, 2, 0, 100000⟩] (by decide)
      (by decide) (by decide) [⟨40000000, 1000, 0⟩] rfl⟩

/-! ## Theorems: best-quote recompute on level emptying (claim C3) -/

/-- C3 (counterexample): when an `ExecuteFull` empties the only real ask
level, the emitted best ask does *not* retain its last value.  With a single
AddSell at 10.00 (1000 cents) fully executed, the recompute
`valuesP[nAsk > 0].min()` finds the initialization sentinel `nAsk[-1] = 1`
and the emitted best ask jumps to the top of the price grid,
`maxP = 10.99` (1099 cents) — not the retained 10.00. -/
theorem best_ask_becomes_sentinel :
    itch_midpoint_millisecond_data
        [⟨40000000, 1, 2, 100000⟩, ⟨40000001, 1, 5, 0⟩] =
      .ok [⟨40000000, 1000, 0⟩, ⟨40000001, 1099, 0⟩] ∧
    (1099 : Int) ≠ 1000 :=
  ⟨rfl, by decide⟩

/-- C3 (amended): on an `ExecuteFull`/`DeleteFull` that empties the level
currently holding the best quote, the new best is recomputed as the
minimum (ask) / maximum (bid) price level with nonzero outstanding count —
a set that always contains the boundary sentinel seeded at initialization
(`nAsk[-1] = 1`, `nBid[0] = 1`).  Hence when no *real* order remains on that
side, the recompute does not crash and does not retain the last value: the
best ask becomes the top grid price `maxP` and the best bid becomes the
bottom grid price `minP`, and a quote-change record is emitted. -/
theorem step_empty_best_recomputes_to_sentinel :
    (∀ (minP : Int) (nLevels : Nat) (st : BookState) (e : RefEvent),
      (e.typ = 5 ∨ e.typ = 6) → e.typ_ref = 2 →
      0 ≤ myPriceIndex minP e.price_ref →
      myPriceIndex minP e.price_ref < (nLevels : Int) →
      st.nAsk (myPriceIndex minP e.price_ref).toNat = 1 →
      valP minP (myPriceIndex minP e.price_ref).toNat = st.bestAsk →
      0 < st.nAsk (nLevels - 1) →
      (∀ k, k < nLevels → k ≠ (myPriceIndex minP e.price_ref).toNat →
        k ≠ nLevels - 1 → st.nAsk k ≤ 0) →
      (myPriceIndex minP e.price_ref).toNat ≠ nLevels - 1 →
      bookStep minP nLevels st e = .ok
        { st with
          nAsk := Function.update st.nAsk
            (myPriceIndex minP e.price_ref).toNat
            (st.nAsk (myPriceIndex minP e.price_ref).toNat - 1)
          bestAsk := valP minP (nLevels - 1)
          records := st.records ++
            [⟨e.time, valP minP (nLevels - 1), st.bestBid⟩] }) ∧
    (∀ (minP : Int) (nLevels : Nat) (st : BookState) (e : RefEvent),
      (e.typ = 5 ∨ e.typ = 6) → e.typ_ref ≠ 2 →
      0 ≤ myPriceIndex minP e.price_ref →
      myPriceIndex minP e.price_ref < (nLevels : Int) →
      st.nBid (myPriceIndex minP e.price_ref).toNat = 1 →
      valP minP (myPriceIndex minP e.price_ref).toNat = st.bestBid →
      0 < st.nBid 0 →
      (∀ k, k < nLevels → k ≠ (myPriceIndex minP e.price_ref).toNat →
        k ≠ 0 → st.nBid k ≤ 0) →
      (myPriceIndex minP e.price_ref).toNat ≠ 0 →
      bookStep minP nLevels st e = .ok
        { st with
          nBid := Function.update st.nBid
            (myPriceIndex minP e.price_ref).toNat
            (st.nBid (myPriceIndex minP e.price_ref).toNat - 1)
          bestBid := valP minP 0
          records := st.records ++
            [⟨e.time, st.bestAsk, valP minP 0⟩] }) := by
  constructor
  · intro minP nLevels st e h56 hr2 hge hlt hone hbest hsent hothers hjtop
    have h2 : ¬ e.typ = 2 := by rcases h56 with h | h <;> omega
    have h1 : ¬ e.typ = 1 := by rcases h56 with h | h <;> omega
    have hn1 : 1 ≤ nLevels := by omega
    have hempty : Function.update st.nAsk
        (myPriceIndex minP e.price_ref).toNat
        (st.nAsk (myPriceIndex minP e.price_ref).toNat - 1)
        (myPriceIndex minP e.price_ref).toNat = 0 ∧
        valP minP (myPriceIndex minP e.price_ref).toNat = st.bestAsk := by
      refine ⟨?_, hbest⟩
      rw [Function.update_same, hone]
      decide
    have hmin : ((((List.range nLevels).filter (fun k =>
        decide (0 < Function.update st.nAsk
          (myPriceIndex minP e.price_ref).toNat
          (st.nAsk (myPriceIndex minP e.price_ref).toNat - 1) k))).map
        (valP minP)).min?) = some (valP minP (nLevels - 1)) := by
      apply min?_map_filter_range_eq
      · omega
      · apply decide_eq_true
        rw [Function.update_noteq (fun h => hjtop h.symm)]
        exact hsent
      · intro k hk hpk
        have hpos := of_decide_eq_true hpk
        by_cases hkj : k = (myPriceIndex minP e.price_ref).toNat
        · subst hkj
          rw [Function.update_same, hone] at hpos
          omega
        · rw [Function.update_noteq hkj] at hpos
          by_contra hktop
          exact absurd hpos (by have := hothers k hk hkj hktop; omega)
    have hne : valP minP (nLevels - 1) ≠ st.bestAsk := by
      rw [← hbest]
      unfold valP
      intro hcontra
      apply hjtop
      omega
    simp only [bookStep, if_pos (And.intro hge hlt), if_neg h2, if_neg h1,
      if_pos h56, if_pos hr2, if_pos hempty, hmin, Except.map]
    rw [if_pos (Or.inl hne)]
  · intro minP nLevels st e h56 hr2 hge hlt hone hbest hsent hothers hj0
    have h2 : ¬ e.typ = 2 := by rcases h56 with h | h <;> omega
    have h1 : ¬ e.typ = 1 := by rcases h56 with h | h <;> omega
    have hempty : Function.update st.nBid
        (myPriceIndex minP e.price_ref).toNat
        (st.nBid (myPriceIndex minP e.price_ref).toNat - 1)
        (myPriceIndex minP e.price_ref).toNat = 0 ∧
        valP minP (myPriceIndex minP e.price_ref).toNat = st.bestBid := by
      refine ⟨?_, hbest⟩
      rw [Function.update_same, hone]
      decide
    have hmax : ((((List.range nLevels).filter (fun k =>
        decide (0 < Function.update st.nBid
          (myPriceIndex minP e.price_ref).toNat
          (st.nBid (myPriceIndex minP e.price_ref).toNat - 1) k))).map
        (valP minP)).max?) = some (valP minP 0) := by
      apply max?_map_filter_range_eq
      · omega
      · apply decide_eq_true
        rw [Function.update_noteq (fun h => hj0 h.symm)]
        exact hsent
      · intro k hk hpk
        have hpos := of_decide_eq_true hpk
        by_cases hkj : k = (myPriceIndex minP e.price_ref).toNat
        · subst hkj
          rw [Function.update_same, hone] at hpos
          omega
        · rw [Function.update_noteq hkj] at hpos
          by_contra hk0
          exact absurd hpos (by have := hothers k hk hkj hk0; omega)
    have hne : valP minP 0 ≠ st.bestBid := by
      rw [← hbest]
      unfold valP
      intro hcontra
      apply hj0
      omega
    simp only [bookStep, if_pos (And.intro hge hlt), if_neg h2, if_neg h1,
      if_pos h56, if_neg hr2, if_pos hempty, hmax, Except.map]
    rw [if_pos (Or.inr hne)]

set_option maxRecDepth 100000 in
/-- C3 (witness): the sentinel-recompute theorem at a concrete state: one
real ask resting at level 100 (price 10.00 on the `minP = 9.00` grid with
200 levels) plus the sentinel at level 199, fully executed; the best ask
becomes `valP 900 199 = 1099` cents (`maxP = 10.99`) and a record is
emitted. -/
theorem step_empty_best_recomputes_to_sentinel_witness :
    (myPriceIndex 900 100000 = 100 ∧ ((5 : Nat) = 5 ∨ (5 : Nat) = 6)) ∧
    bookStep 900 200
      { nAsk := fun j => if j = 100 then 1 else if j = 199 then 1 else 0
        nBid := fun j => if j = 0 then 1 else 0
        bestAsk := 1000
        bestBid := 0
        records := [] }
      ⟨40000001, 5, 2, 100000⟩ = .ok
      { nAsk := Function.update
          (fun j => if j = 100 then 1 else if j = 199 then 1 else 0) 100 0
        nBid := fun j => if j = 0 then 1 else 0
        bestAsk := 1099
        bestBid := 0
        records := [⟨40000001, 1099, 0⟩] } :=
  ⟨⟨by decide, Or.inl rfl⟩,
    step_empty_best_recomputes_to_sentinel.1 900 200
      { nAsk := fun j => if j = 100 then 1 else if j = 199 then 1 else 0
        nBid := fun j => if j = 0 then 1 else 0
        bestAsk := 1000
        bestBid := 0
        records := [] }
      ⟨40000001, 5, 2, 100000⟩ (Or.inl rfl) rfl (by decide) (by decide)
      (by decide) (by decide) (by decide) (by decide) (by decide)⟩
